import Mathlib

/-!
Verification of `generate_zod_schema.py` (TypeScript → Zod schema converter).

Python strings are modelled as `List Char`.  The converter's regular
expressions are modelled by a small backtracking engine (`run`) returning
the list of all matches in Python `re` backtracking priority order (the
head of the list is the match `re` reports).  The engine is structurally
recursive on an explicit fuel so that the kernel can evaluate it; canonical
wrappers supply a fuel that is provably sufficient.
-/

set_option maxRecDepth 20000

namespace ZodGen

/-- Python `\s` on the ASCII inputs this converter handles. -/
def isPySpace (c : Char) : Bool :=
  c == ' ' || c == '\t' || c == '\n' || c == '\r' || c == Char.ofNat 11 || c == Char.ofNat 12

/-- Python `\w` on ASCII inputs. -/
def isWordChar (c : Char) : Bool := c.isAlphanum || c == '_'

/-- Python `str.strip()` (ASCII whitespace). -/
def pyStrip (s : List Char) : List Char :=
  ((s.dropWhile isPySpace).reverse.dropWhile isPySpace).reverse

/-- Python `str.rstrip(';')`. -/
def stripSemis (s : List Char) : List Char :=
  (s.reverse.dropWhile (fun c => c == ';')).reverse

/-- Python substring test `p in s`. -/
def isSub (p : List Char) : List Char → Bool
  | [] => p.isEmpty
  | c :: t => p.isPrefixOf (c :: t) || isSub p t

/-- Python `str.split(sep)` for a one-character separator. -/
def pySplit (sep : Char) : List Char → List (List Char)
  | [] => [[]]
  | c :: t =>
    if c = sep then [] :: pySplit sep t
    else
      match pySplit sep t with
      | [] => [[c]]
      | r :: rs => (c :: r) :: rs

def lbrace : Char := Char.ofNat 123

def rbrace : Char := Char.ofNat 125

def quoteD : Char := Char.ofNat 34

def quoteS : Char := Char.ofNat 39

def nl : List Char := ("\n").data

/-- Regular-expression syntax used by the converter's patterns.
`starG`/`starL` are the greedy and lazy Kleene star, `grp` a capture
group, `bolML`/`eolML` the MULTILINE anchors and `eolSL` the plain `$`. -/
inductive RE where
  | eps
  | lit (c : Char)
  | cls (p : Char → Bool)
  | seq (a b : RE)
  | alt (a b : RE)
  | grp (n : Nat) (a : RE)
  | starG (a : RE)
  | starL (a : RE)
  | bolML
  | eolML
  | eolSL

/-- Captured groups: later captures are listed first (Python keeps the last). -/
abbrev Caps := List (Nat × List Char)

/-- Size of a regex, used for fuel bounds. -/
def sz : RE → Nat
  | .eps => 1
  | .lit _ => 1
  | .cls _ => 1
  | .seq a b => sz a + sz b + 1
  | .alt a b => sz a + sz b + 1
  | .grp _ a => sz a + 1
  | .starG a => sz a + 1
  | .starL a => sz a + 1
  | .bolML => 1
  | .eolML => 1
  | .eolSL => 1

/-- All ways a regex can match a prefix of `s`, in backtracking priority
order: each element is (last consumed char, remaining input, captures).
`prev` is the character just before the current position (for `^`).
Structurally recursive on the fuel `fu`; a star iteration must consume
input (all star bodies used here consume at least one character, which is
also how Python avoids empty-iteration loops). -/
def run (fu : Nat) (re : RE) (prev : Option Char) (s : List Char) :
    List (Option Char × List Char × Caps) :=
  match fu with
  | 0 => []
  | fu + 1 =>
    match re with
    | .eps => [(prev, s, [])]
    | .lit c =>
      match s with
      | [] => []
      | x :: xs => if x = c then [(some x, xs, [])] else []
    | .cls p =>
      match s with
      | [] => []
      | x :: xs => if p x then [(some x, xs, [])] else []
    | .seq a b =>
      (run fu a prev s).flatMap (fun pr =>
        (run fu b pr.1 pr.2.1).map (fun qr => (qr.1, qr.2.1, qr.2.2 ++ pr.2.2)))
    | .alt a b => run fu a prev s ++ run fu b prev s
    | .grp n a =>
      (run fu a prev s).map (fun pr =>
        (pr.1, pr.2.1, (n, s.take (s.length - pr.2.1.length)) :: pr.2.2))
    | .starG a =>
      ((run fu a prev s).flatMap (fun pr =>
        if pr.2.1.length < s.length then
          (run fu (.starG a) pr.1 pr.2.1).map (fun qr => (qr.1, qr.2.1, qr.2.2 ++ pr.2.2))
        else [])) ++ [(prev, s, [])]
    | .starL a =>
      (prev, s, ([] : Caps)) :: ((run fu a prev s).flatMap (fun pr =>
        if pr.2.1.length < s.length then
          (run fu (.starL a) pr.1 pr.2.1).map (fun qr => (qr.1, qr.2.1, qr.2.2 ++ pr.2.2))
        else []))
    | .bolML => if prev = none ∨ prev = some '\n' then [(prev, s, [])] else []
    | .eolML => if s = [] ∨ s.head? = some '\n' then [(prev, s, [])] else []
    | .eolSL => if s = [] ∨ s = ['\n'] then [(prev, s, [])] else []

/-- Fuel sufficient for `run re` on `s`. -/
def fuelFor (re : RE) (s : List Char) : Nat := sz re * (s.length + 1) + 1

/-- The `prev` value after consuming `w` (last char of `w`, else unchanged). -/
def prevAfter (w : List Char) (prev : Option Char) : Option Char :=
  match w.getLast? with
  | some c => some c
  | none => prev

/-- The `prev` value at offset `i` into `s`. -/
def prevAt (i : Nat) (prev : Option Char) (s : List Char) : Option Char :=
  prevAfter (s.take i) prev

/-- Last capture of group `n` (Python `match.group(n)`). -/
def capGet (caps : Caps) (n : Nat) : Option (List Char) :=
  (caps.find? (fun p => p.1 == n)).map (fun p => p.2)

/-- Python `re.match`: the backtracking-first match anchored at position 0. -/
def reMatch (re : RE) (s : List Char) : Option (Option Char × List Char × Caps) :=
  (run (fuelFor re s) re none s).head?

/-- Scanning worker for `re.search`: try each position left to right. -/
def searchGo (fu : Nat) (re : RE) (prev : Option Char) (s : List Char) : Option Caps :=
  match fu with
  | 0 => none
  | fu + 1 =>
    match (run (fuelFor re s) re prev s).head? with
    | some pr => some pr.2.2
    | none =>
      match s with
      | [] => none
      | c :: t => searchGo fu re (some c) t

/-- Python `re.search`, returning the captures of the first match. -/
def reSearch (re : RE) (s : List Char) : Option Caps := searchGo (s.length + 1) re none s

/-- Scanning worker for `re.finditer`: non-overlapping matches, an empty
match advances one character. -/
def iterGo (fu : Nat) (re : RE) (prev : Option Char) (s : List Char) :
    List (List Char × Caps) :=
  match fu with
  | 0 => []
  | fu + 1 =>
    match (run (fuelFor re s) re prev s).head? with
    | some pr =>
      let m := s.take (s.length - pr.2.1.length)
      if pr.2.1.length < s.length then (m, pr.2.2) :: iterGo fu re pr.1 pr.2.1
      else
        match s with
        | [] => [(m, pr.2.2)]
        | c :: t => (m, pr.2.2) :: iterGo fu re (some c) t
    | none =>
      match s with
      | [] => []
      | c :: t => iterGo fu re (some c) t

/-- Python `re.finditer`: list of (matched text, captures). -/
def findIter (re : RE) (s : List Char) : List (List Char × Caps) :=
  iterGo (s.length + 1) re none s

/-- Scanning worker for `re.sub` with empty replacement. -/
def subGo (fu : Nat) (re : RE) (prev : Option Char) (s : List Char) : List Char :=
  match fu with
  | 0 => s
  | fu + 1 =>
    match (run (fuelFor re s) re prev s).head? with
    | some pr =>
      if pr.2.1.length < s.length then subGo fu re pr.1 pr.2.1
      else
        match s with
        | [] => []
        | c :: t => c :: subGo fu re (some c) t
    | none =>
      match s with
      | [] => []
      | c :: t => c :: subGo fu re (some c) t

/-- Python `re.sub(pattern, '', s)`. -/
def reSub (re : RE) (s : List Char) : List Char := subGo (s.length + 1) re none s

/-- A sequence of literal characters. -/
def lits (w : List Char) : RE := w.foldr (fun c r => RE.seq (.lit c) r) .eps

def clsWs : RE := .cls isPySpace

/-- `\s*` (greedy). -/
def wsStar : RE := .starG clsWs

/-- `\s+` (greedy). -/
def wsPlus : RE := .seq clsWs wsStar

/-- `\w+` (greedy). -/
def wordPlusG : RE := .seq (.cls isWordChar) (.starG (.cls isWordChar))

/-- `.` without DOTALL. -/
def dotNL : RE := .cls (fun c => c != '\n')

/-- `.` with DOTALL. -/
def dotAll : RE := .cls (fun _ => true)

/-- `X+?` (lazy plus). -/
def lazyPlus (d : RE) : RE := .seq d (.starL d)

/-- `X?` (greedy option). -/
def ropt (a : RE) : RE := .alt a .eps

/-- `(undefined|null)` of the sub pattern. -/
def subP4 : RE := .grp 1 (.alt (lits ("undefined").data) (lits ("null").data))

/-- `\s*(undefined|null)` of the sub pattern. -/
def subP3 : RE := .seq wsStar subP4

/-- `\|\s*(undefined|null)` of the sub pattern. -/
def subP2 : RE := .seq (.lit '|') subP3

/-- `\s*\|\s*(undefined|null)` (the `re.sub` pattern of `convert_type`). -/
def subPat : RE := .seq wsStar subP2

/-- `\s*>` at the end of the `Record` pattern. -/
def recordR6 : RE := .seq wsStar (.lit '>')

/-- `(.+?)\s*>` of the `Record` pattern. -/
def recordR5 : RE := .seq (.grp 2 (lazyPlus dotNL)) recordR6

/-- `\s*(.+?)\s*>` of the `Record` pattern. -/
def recordR4 : RE := .seq wsStar recordR5

/-- `,\s*(.+?)\s*>` of the `Record` pattern. -/
def recordR3 : RE := .seq (.lit ',') recordR4

/-- `\s*,\s*(.+?)\s*>` of the `Record` pattern. -/
def recordR2 : RE := .seq wsStar recordR3

/-- The part of the `Record<...>` pattern after the literal `Record<`. -/
def recordTail : RE :=
  .seq wsStar (.seq (.grp 1 (lazyPlus dotNL)) recordR2)

/-- `Record<\s*(.+?)\s*,\s*(.+?)\s*>`. -/
def recordPat : RE := .seq (lits ("Record<").data) recordTail

/-- `\s*$` at the end of the alias pattern. -/
def aliasA8 : RE := .seq wsStar .eolSL

/-- `;?\s*$` of the alias pattern. -/
def aliasA7 : RE := .seq (ropt (.lit ';')) aliasA8

/-- `(.+?);?\s*$` of the alias pattern (DOTALL). -/
def aliasA6 : RE := .seq (.grp 2 (lazyPlus dotAll)) aliasA7

/-- `\s*(.+?);?\s*$` of the alias pattern. -/
def aliasA5 : RE := .seq wsStar aliasA6

/-- `=\s*(.+?);?\s*$` of the alias pattern. -/
def aliasA4 : RE := .seq (.lit '=') aliasA5

/-- `\s*=\s*(.+?);?\s*$` of the alias pattern. -/
def aliasA3 : RE := .seq wsStar aliasA4

/-- `(\w+)\s*=\s*(.+?);?\s*$` of the alias pattern. -/
def aliasA2 : RE := .seq (.grp 1 wordPlusG) aliasA3

/-- `\s+(\w+)\s*=\s*(.+?);?\s*$` of the alias pattern. -/
def aliasA1 : RE := .seq wsPlus aliasA2

/-- `type\s+(\w+)\s*=\s*(.+?);?\s*$` with DOTALL (used by `parse_type_alias`). -/
def aliasPat : RE := .seq (lits ("type").data) aliasA1

/-- `interface\s+(\w+)` (used by `parse_interface`). -/
def ifaceNamePat : RE := .seq (lits ("interface").data) (.seq wsPlus (.grp 1 wordPlusG))

/-- `enum\s+(\w+)` (used by `parse_enum`). -/
def enumNamePat : RE := .seq (lits ("enum").data) (.seq wsPlus (.grp 1 wordPlusG))

/-- `\{(.+?)\}` with DOTALL (body extraction). -/
def bodyPat : RE := .seq (.lit lbrace) (.seq (.grp 1 (lazyPlus dotAll)) (.lit rbrace))

/-- `/\*\*\s*(.+?)\s*\*/\s*` (the optional JSDoc part of the field pattern). -/
def jsdocPat : RE :=
  .seq (lits ("/**").data)
    (.seq wsStar (.seq (.grp 1 (lazyPlus dotNL))
      (.seq wsStar (.seq (lits ("*/").data) wsStar))))

/-- `^\s*(?:/\*\*\s*(.+?)\s*\*/\s*)?(\w+)(\??)\s*:\s*(.+?);?\s*$` MULTILINE. -/
def fieldPat : RE :=
  .seq .bolML
    (.seq wsStar (.seq (ropt jsdocPat)
      (.seq (.grp 2 wordPlusG) (.seq (.grp 3 (ropt (.lit '?')))
        (.seq wsStar (.seq (.lit ':')
          (.seq wsStar (.seq (.grp 4 (lazyPlus dotNL))
            (.seq (ropt (.lit ';')) (.seq wsStar .eolML))))))))))

/-- `["\']` character class. -/
def clsQuote : RE := .cls (fun c => c == quoteD || c == quoteS)

/-- `(\w+)\s*(?:=\s*["\'](.+?)["\']\s*)?` (enum member pattern). -/
def valuePat : RE :=
  .seq (.grp 1 wordPlusG)
    (.seq wsStar (ropt (.seq (.lit '=')
      (.seq wsStar (.seq clsQuote (.seq (.grp 2 (lazyPlus dotNL)) (.seq clsQuote wsStar)))))))

/-- `(?:export\s+)?interface\s+\w+\s*\{[^}]*\}` (DOTALL). -/
def interfacePat : RE :=
  .seq (ropt (.seq (lits ("export").data) wsPlus))
    (.seq (lits ("interface").data) (.seq wsPlus (.seq wordPlusG
      (.seq wsStar (.seq (.lit lbrace)
        (.seq (.starG (.cls (fun c => c != rbrace))) (.lit rbrace)))))))

/-- `(?:export\s+)?type\s+\w+\s*=\s*[^;]+;?` (DOTALL). -/
def typePat : RE :=
  .seq (ropt (.seq (lits ("export").data) wsPlus))
    (.seq (lits ("type").data) (.seq wsPlus (.seq wordPlusG
      (.seq wsStar (.seq (.lit '=')
        (.seq wsStar (.seq (.seq (.cls (fun c => c != ';')) (.starG (.cls (fun c => c != ';'))))
          (ropt (.lit ';')))))))))

/-- `(?:export\s+)?enum\s+\w+\s*\{[^}]*\}` (DOTALL). -/
def enumPat : RE :=
  .seq (ropt (.seq (lits ("export").data) wsPlus))
    (.seq (lits ("enum").data) (.seq wsPlus (.seq wordPlusG
      (.seq wsStar (.seq (.lit lbrace)
        (.seq (.starG (.cls (fun c => c != rbrace))) (.lit rbrace)))))))

/-- The `TYPE_MAP` dictionary. -/
def TYPE_MAP : List (List Char × List Char) :=
  [ (("string").data, ("z.string()").data)
  , (("number").data, ("z.number()").data)
  , (("boolean").data, ("z.boolean()").data)
  , (("Date").data, ("z.date()").data)
  , (("any").data, ("z.any()").data)
  , (("unknown").data, ("z.unknown()").data)
  , (("null").data, ("z.null()").data)
  , (("undefined").data, ("z.undefined()").data)
  , (("void").data, ("z.void()").data)
  ]

/-- The converter's registries (`self.interfaces`, `self.types`, `self.enums`). -/
structure ConvEnv where
  interfaces : List (List Char × List Char)
  types : List (List Char × List Char)
  enums : List (List Char × List (List Char))

/-- Python dict insertion: updating an existing key keeps its position. -/
def dinsert {α : Type} (k : List Char) (v : α) (d : List (List Char × α)) :
    List (List Char × α) :=
  if d.any (fun p => p.1 == k) then d.map (fun p => if p.1 == k then (k, v) else p)
  else d ++ [(k, v)]

/-- Python `key in dict`. -/
def hasKey {α : Type} (d : List (List Char × α)) (k : List Char) : Bool :=
  d.any (fun p => p.1 == k)

/-- The normalization prefix of `convert_type`: strip, handle a trailing
`?`, and strip `| undefined` / `| null` union members, accumulating the
optional flag. -/
def normalize_ts (ts0 : List Char) (optional0 : Bool) : List Char × Bool :=
  let ts1 := pyStrip ts0
  let p2 : List Char × Bool :=
    if ts1.getLast? = some '?' then (pyStrip ts1.dropLast, true) else (ts1, optional0)
  if isSub ((" | undefined").data) p2.1 || isSub ((" | null").data) p2.1 then
    (pyStrip (reSub subPat p2.1), true)
  else p2

/-- The branch dispatch of `convert_type` on the normalized expression,
with the recursive occurrences abstracted as `rec` (a fueling artifact). -/
def convert_type_zod (env : ConvEnv) (rec : List Char → Bool → List Char)
    (ts3 : List Char) : List Char :=
  match List.lookup ts3 TYPE_MAP with
  | some z => z
  | none =>
    if ("[]").data.isSuffixOf ts3 then
      ("z.array(").data ++ rec (pyStrip ts3.dropLast.dropLast) false ++ (")").data
    else if (("Array<").data.isPrefixOf ts3 ∧ ts3.getLast? = some '>') then
      ("z.array(").data ++ rec (pyStrip ((ts3.drop 6).dropLast)) false ++ (")").data
    else if ("Record<").data.isPrefixOf ts3 then
      match reMatch recordPat ts3 with
      | some pr =>
        ("z.record(").data ++ rec ((capGet pr.2.2 2).getD []) false ++ (")").data
      | none => ("z.record(z.any())").data
    else if isSub ((" | ").data) ts3 then
      ("z.union([").data ++
        List.intercalate ((", ").data)
          ((pySplit '|' ts3).map (fun t => rec (pyStrip t) false)) ++
        ("])").data
    else if (ts3.head? = some quoteS ∨ ts3.head? = some quoteD) then
      ("z.literal(").data ++ ts3 ++ (")").data
    else if hasKey env.interfaces ts3 || hasKey env.types ts3 || hasKey env.enums ts3 then
      ts3 ++ ("Schema").data
    else
      ("z.any() /* TODO: define schema for ").data ++ ts3 ++ (" */").data

/-- One unfolding of `TypeScriptToZodConverter.convert_type`, with the
recursive occurrences abstracted as `rec` (a fueling artifact). -/
def convert_type_body (env : ConvEnv) (rec : List Char → Bool → List Char)
    (ts0 : List Char) (optional0 : Bool) : List Char :=
    let p3 : List Char × Bool := normalize_ts ts0 optional0
    let zod : List Char := convert_type_zod env rec p3.1
    if p3.2 then zod ++ (".optional()").data else zod

/-- `TypeScriptToZodConverter.convert_type`, fueled (the fuel bounds the
recursion depth; `convert_type` supplies a sufficient fuel). -/
def convert_typeF (env : ConvEnv) : Nat → List Char → Bool → List Char
  | 0, _, _ => []
  | fu + 1, ts0, optional0 => convert_type_body env (convert_typeF env fu) ts0 optional0

/-- `TypeScriptToZodConverter.convert_type`. -/
def convert_type (env : ConvEnv) (ts : List Char) (optional : Bool) : List Char :=
  convert_typeF env (ts.length + 1) ts optional

/-- One parsed interface field: name, type text, optional flag, description. -/
abbrev FieldT := List Char × List Char × Bool × Option (List Char)

/-- `TypeScriptToZodConverter.parse_interface` (`none` models `ValueError`). -/
def parse_interface (s : List Char) : Option (List Char × List FieldT) :=
  match reSearch ifaceNamePat s with
  | none => none
  | some caps =>
    let name := (capGet caps 1).getD []
    let fields : List FieldT :=
      match reSearch bodyPat s with
      | none => []
      | some bcaps =>
        (findIter fieldPat ((capGet bcaps 1).getD [])).map (fun m =>
          ((capGet m.2 2).getD [],
           pyStrip ((capGet m.2 4).getD []),
           (capGet m.2 3).getD [] == ("?").data,
           capGet m.2 1))
    some (name, fields)

/-- `TypeScriptToZodConverter.parse_type_alias`. -/
def parse_type_alias (s : List Char) : Option (List Char × List Char) :=
  match reSearch aliasPat s with
  | none => none
  | some caps =>
    some ((capGet caps 1).getD [], stripSemis (pyStrip ((capGet caps 2).getD [])))

/-- `TypeScriptToZodConverter.parse_enum`. -/
def parse_enum (s : List Char) : Option (List Char × List (List Char)) :=
  match reSearch enumNamePat s with
  | none => none
  | some caps =>
    let name := (capGet caps 1).getD []
    let values : List (List Char) :=
      match reSearch bodyPat s with
      | none => []
      | some b =>
        (findIter valuePat ((capGet b 1).getD [])).map (fun m =>
          match capGet m.2 2 with
          | some v => if v.isEmpty then (capGet m.2 1).getD [] else v
          | none => (capGet m.2 1).getD [])
    some (name, values)

/-- `TypeScriptToZodConverter.interface_to_zod`. -/
def interface_to_zod (env : ConvEnv) (name : List Char) (fields : List FieldT) : List Char :=
  let fieldLines := fields.map (fun f =>
    let zt := convert_type env f.2.1 f.2.2.1
    let base := ("  ").data ++ f.1 ++ (": ").data ++ zt
    match f.2.2.2 with
    | some d =>
      if d.isEmpty then base ++ (",").data
      else base ++ (".describe(\"").data ++ d ++ ("\"),").data
    | none => base ++ (",").data)
  List.intercalate nl
    ([("export const ").data ++ name ++ ("Schema = z.object(\x7b").data] ++ fieldLines ++
     [("\x7d);").data, [],
      ("export type ").data ++ name ++ (" = z.infer<typeof ").data ++ name ++ ("Schema>;").data])

/-- `TypeScriptToZodConverter.type_alias_to_zod`. -/
def type_alias_to_zod (env : ConvEnv) (name : List Char) (tdef : List Char) : List Char :=
  List.intercalate nl
    [("export const ").data ++ name ++ ("Schema = ").data ++ convert_type env tdef false ++ (";").data,
     [],
     ("export type ").data ++ name ++ (" = z.infer<typeof ").data ++ name ++ ("Schema>;").data]

/-- `TypeScriptToZodConverter.enum_to_zod`. -/
def enum_to_zod (name : List Char) (values : List (List Char)) : List Char :=
  let quoted := values.map (fun v => [quoteD] ++ v ++ [quoteD])
  let zdef : List Char :=
    if values.length = 1 then ("z.literal(").data ++ quoted.headD [] ++ (")").data
    else ("z.enum([").data ++ List.intercalate ((", ").data) quoted ++ ("])").data
  List.intercalate nl
    [("export const ").data ++ name ++ ("Schema = ").data ++ zdef ++ (";").data,
     [],
     ("export type ").data ++ name ++ (" = z.infer<typeof ").data ++ name ++ ("Schema>;").data]

/-- The interface registry built by `convert_file`. -/
def interfacesOf (input : List Char) : List (List Char × List Char) :=
  (findIter interfacePat input).foldl
    (fun d m => match parse_interface m.1 with
      | some p => dinsert p.1 m.1 d
      | none => d) []

/-- The type-alias registry built by `convert_file`. -/
def typesOf (input : List Char) : List (List Char × List Char) :=
  (findIter typePat input).foldl
    (fun d m => match parse_type_alias m.1 with
      | some p => dinsert p.1 p.2 d
      | none => d) []

/-- The enum registry built by `convert_file`. -/
def enumsOf (input : List Char) : List (List Char × List (List Char)) :=
  (findIter enumPat input).foldl
    (fun d m => match parse_enum m.1 with
      | some p => dinsert p.1 p.2 d
      | none => d) []

/-- `TypeScriptToZodConverter.convert_file`. -/
def convert_file (input : List Char) : List Char :=
  let interfaces := interfacesOf input
  let types := typesOf input
  let enums := enumsOf input
  let env : ConvEnv := ⟨interfaces, types, enums⟩
  let out0 : List (List Char) :=
    [("import \x7b z \x7d from \x27zod\x27;").data, [],
     ("// Auto-generated Zod schemas").data, []]
  let out1 := enums.foldl (fun acc p => acc ++ [enum_to_zod p.1 p.2, []]) out0
  let out2 := types.foldl (fun acc p => acc ++ [type_alias_to_zod env p.1 p.2, []]) out1
  let out3 := interfaces.foldl (fun acc p =>
    match parse_interface p.2 with
    | some q => acc ++ [interface_to_zod env p.1 q.2, []]
    | none => acc) out2
  List.intercalate nl out3


/-! ### Basic engine lemmas -/

theorem run_eps_eq (fu : Nat) (prev : Option Char) (s : List Char) :
    run (fu + 1) .eps prev s = [(prev, s, [])] := rfl

theorem run_lit_nil (fu : Nat) (c : Char) (prev : Option Char) :
    run (fu + 1) (.lit c) prev [] = [] := rfl

theorem run_lit_cons (fu : Nat) (c x : Char) (prev : Option Char) (xs : List Char) :
    run (fu + 1) (.lit c) prev (x :: xs) = if x = c then [(some x, xs, [])] else [] := rfl

theorem run_cls_nil (fu : Nat) (p : Char → Bool) (prev : Option Char) :
    run (fu + 1) (.cls p) prev [] = [] := rfl

theorem run_cls_cons (fu : Nat) (p : Char → Bool) (x : Char) (prev : Option Char)
    (xs : List Char) :
    run (fu + 1) (.cls p) prev (x :: xs) = if p x then [(some x, xs, [])] else [] := rfl

theorem run_seq_eq (fu : Nat) (a b : RE) (prev : Option Char) (s : List Char) :
    run (fu + 1) (.seq a b) prev s =
      (run fu a prev s).flatMap (fun pr =>
        (run fu b pr.1 pr.2.1).map (fun qr => (qr.1, qr.2.1, qr.2.2 ++ pr.2.2))) := rfl

theorem run_alt_eq (fu : Nat) (a b : RE) (prev : Option Char) (s : List Char) :
    run (fu + 1) (.alt a b) prev s = run fu a prev s ++ run fu b prev s := rfl

theorem run_grp_eq (fu : Nat) (n : Nat) (a : RE) (prev : Option Char) (s : List Char) :
    run (fu + 1) (.grp n a) prev s =
      (run fu a prev s).map (fun pr =>
        (pr.1, pr.2.1, (n, s.take (s.length - pr.2.1.length)) :: pr.2.2)) := rfl

theorem run_starG_eq (fu : Nat) (a : RE) (prev : Option Char) (s : List Char) :
    run (fu + 1) (.starG a) prev s =
      ((run fu a prev s).flatMap (fun pr =>
        if pr.2.1.length < s.length then
          (run fu (.starG a) pr.1 pr.2.1).map (fun qr => (qr.1, qr.2.1, qr.2.2 ++ pr.2.2))
        else [])) ++ [(prev, s, [])] := rfl

theorem run_starL_eq (fu : Nat) (a : RE) (prev : Option Char) (s : List Char) :
    run (fu + 1) (.starL a) prev s =
      (prev, s, ([] : Caps)) :: ((run fu a prev s).flatMap (fun pr =>
        if pr.2.1.length < s.length then
          (run fu (.starL a) pr.1 pr.2.1).map (fun qr => (qr.1, qr.2.1, qr.2.2 ++ pr.2.2))
        else [])) := rfl

theorem prevAfter_nil (prev : Option Char) : prevAfter [] prev = prev := rfl

theorem prevAfter_cons (c : Char) (w : List Char) (prev : Option Char) :
    prevAfter (c :: w) prev = prevAfter w (some c) := by
  cases w with
  | nil => rfl
  | cons y ys =>
    rcases e : (y :: ys).getLast? with _ | z
    · simp [List.getLast?_eq_none_iff] at e
    · simp [prevAfter, List.getLast?_cons_cons, e]

theorem prevAt_zero (prev : Option Char) (s : List Char) : prevAt 0 prev s = prev := rfl

theorem prevAt_succ_cons (i : Nat) (c : Char) (t : List Char) (prev : Option Char) :
    prevAt (i + 1) prev (c :: t) = prevAt i (some c) t := by
  simp only [prevAt, List.take_succ_cons, prevAfter_cons]

theorem run_lits (w : List Char) : ∀ (fu : Nat) (prev : Option Char) (s : List Char),
    w.length < fu →
    run fu (lits w) prev s =
      if w.isPrefixOf s then [(prevAfter w prev, s.drop w.length, [])] else [] := by
  induction w with
  | nil =>
    intro fu prev s h
    obtain ⟨f, rfl⟩ : ∃ f, fu = f + 1 := ⟨fu - 1, by omega⟩
    simp [lits, run_eps_eq, List.isPrefixOf, prevAfter]
  | cons c w ih =>
    intro fu prev s h
    obtain ⟨f, rfl⟩ : ∃ f, fu = f + 1 := ⟨fu - 1, by omega⟩
    have hlits : lits (c :: w) = .seq (.lit c) (lits w) := rfl
    rw [hlits, run_seq_eq]
    cases s with
    | nil =>
      obtain ⟨g, rfl⟩ : ∃ g, f = g + 1 := ⟨f - 1, by simp at h; omega⟩
      simp [run_lit_nil, List.isPrefixOf]
    | cons x xs =>
      obtain ⟨g, rfl⟩ : ∃ g, f = g + 1 := ⟨f - 1, by simp at h; omega⟩
      rw [run_lit_cons]
      by_cases hx : x = c
      · subst hx
        simp only [eq_self_iff_true, if_true, List.flatMap_cons, List.flatMap_nil,
          List.append_nil]
        rw [ih (g + 1) (some x) xs (by simp at h; omega)]
        by_cases hp : w.isPrefixOf xs
        · simp [hp, List.isPrefixOf, prevAfter_cons]
        · simp [hp, List.isPrefixOf]
      · simp [hx, List.isPrefixOf, Ne.symm hx]

/-! ### Character-class star characterizations -/

theorem run_starG_cls (p : Char → Bool) : ∀ (s : List Char) (fu : Nat) (prev : Option Char),
    s.length + 1 < fu →
    run fu (.starG (.cls p)) prev s =
      (List.range ((s.takeWhile p).length + 1)).reverse.map
        (fun i => (prevAt i prev s, s.drop i, ([] : Caps))) := by
  intro s
  induction s with
  | nil =>
    intro fu prev h
    obtain ⟨f, rfl⟩ : ∃ f, fu = f + 1 := ⟨fu - 1, by omega⟩
    obtain ⟨g, rfl⟩ : ∃ g, f = g + 1 := ⟨f - 1, by omega⟩
    simp [run_starG_eq, run_cls_nil, List.range_succ, prevAt_zero]
  | cons c t ih =>
    intro fu prev h
    obtain ⟨f, rfl⟩ : ∃ f, fu = f + 1 := ⟨fu - 1, by omega⟩
    obtain ⟨g, rfl⟩ : ∃ g, f = g + 1 := ⟨f - 1, by omega⟩
    rw [run_starG_eq, run_cls_cons]
    by_cases hp : p c
    · simp only [hp, if_true, List.flatMap_cons, List.flatMap_nil, List.append_nil]
      have hlt : t.length < (c :: t).length := by simp
      simp only [hlt, if_true]
      rw [ih (g + 1) (some c) (by simp at h; omega)]
      have htw : ((c :: t).takeWhile p).length = (t.takeWhile p).length + 1 := by
        simp [List.takeWhile_cons, hp]
      rw [htw]
      have hr : (List.range ((t.takeWhile p).length + 1 + 1)).reverse =
          ((List.range ((t.takeWhile p).length + 1)).reverse.map Nat.succ) ++ [0] := by
        rw [List.range_succ_eq_map]
        simp [List.map_reverse]
      rw [hr]
      simp only [List.map_append, List.map_map, List.map_cons, List.map_nil]
      congr 1
      refine List.map_congr_left ?_
      intro i _
      simp [Function.comp, prevAt_succ_cons, List.drop_succ_cons]
    · simp only [hp, if_false, List.flatMap_nil, List.nil_append]
      have htw : ((c :: t).takeWhile p).length = 0 := by simp [List.takeWhile_cons, hp]
      rw [htw]
      simp [List.range_succ, prevAt_zero]

theorem run_starL_cls (p : Char → Bool) : ∀ (s : List Char) (fu : Nat) (prev : Option Char),
    s.length + 1 < fu →
    run fu (.starL (.cls p)) prev s =
      (List.range ((s.takeWhile p).length + 1)).map
        (fun i => (prevAt i prev s, s.drop i, ([] : Caps))) := by
  intro s
  induction s with
  | nil =>
    intro fu prev h
    obtain ⟨f, rfl⟩ : ∃ f, fu = f + 1 := ⟨fu - 1, by omega⟩
    obtain ⟨g, rfl⟩ : ∃ g, f = g + 1 := ⟨f - 1, by omega⟩
    simp [run_starL_eq, run_cls_nil, List.range_succ, prevAt_zero]
  | cons c t ih =>
    intro fu prev h
    obtain ⟨f, rfl⟩ : ∃ f, fu = f + 1 := ⟨fu - 1, by omega⟩
    obtain ⟨g, rfl⟩ : ∃ g, f = g + 1 := ⟨f - 1, by omega⟩
    rw [run_starL_eq, run_cls_cons]
    by_cases hp : p c
    · simp only [hp, if_true, List.flatMap_cons, List.flatMap_nil, List.append_nil]
      have hlt : t.length < (c :: t).length := by simp
      simp only [hlt, if_true]
      rw [ih (g + 1) (some c) (by simp at h; omega)]
      have htw : ((c :: t).takeWhile p).length = (t.takeWhile p).length + 1 := by
        simp [List.takeWhile_cons, hp]
      rw [htw]
      rw [show List.range ((t.takeWhile p).length + 1 + 1) =
            0 :: (List.range ((t.takeWhile p).length + 1)).map Nat.succ from
          List.range_succ_eq_map _]
      simp only [List.map_cons, List.map_map]
      congr 1
      refine List.map_congr_left ?_
      intro i _
      simp [Function.comp, prevAt_succ_cons, List.drop_succ_cons]
    · simp only [hp, if_false, List.flatMap_nil]
      have htw : ((c :: t).takeWhile p).length = 0 := by simp [List.takeWhile_cons, hp]
      rw [htw]
      simp [List.range_succ, prevAt_zero]

theorem run_bolML_eq (fu : Nat) (prev : Option Char) (s : List Char) :
    run (fu + 1) .bolML prev s =
      if prev = none ∨ prev = some '\n' then [(prev, s, [])] else [] := rfl

theorem run_eolML_eq (fu : Nat) (prev : Option Char) (s : List Char) :
    run (fu + 1) .eolML prev s =
      if s = [] ∨ s.head? = some '\n' then [(prev, s, [])] else [] := rfl

theorem run_eolSL_eq (fu : Nat) (prev : Option Char) (s : List Char) :
    run (fu + 1) .eolSL prev s =
      if s = [] ∨ s = ['\n'] then [(prev, s, [])] else [] := rfl

theorem run_ropt_eq (fu : Nat) (a : RE) (prev : Option Char) (s : List Char) (h : 0 < fu) :
    run (fu + 1) (ropt a) prev s = run fu a prev s ++ [(prev, s, [])] := by
  obtain ⟨g, rfl⟩ : ∃ g, fu = g + 1 := ⟨fu - 1, by omega⟩
  rw [ropt, run_alt_eq, run_eps_eq]

theorem run_seq_single (fu : Nat) (a b : RE) (prev p1 : Option Char) (s r1 : List Char)
    (c1 : Caps) (ha : run fu a prev s = [(p1, r1, c1)]) :
    run (fu + 1) (.seq a b) prev s =
      (run fu b p1 r1).map (fun qr => (qr.1, qr.2.1, qr.2.2 ++ c1)) := by
  rw [run_seq_eq, ha]
  simp

theorem run_seq_nil (fu : Nat) (a b : RE) (prev : Option Char) (s : List Char)
    (ha : run fu a prev s = []) : run (fu + 1) (.seq a b) prev s = [] := by
  rw [run_seq_eq, ha]
  rfl

/-- Lazy plus over a character class: ascending consumption lengths. -/
theorem run_lazyPlus_cls (p : Char → Bool) (s : List Char) (fu : Nat) (prev : Option Char)
    (h : s.length + 1 < fu) :
    run fu (lazyPlus (.cls p)) prev s =
      (List.range ((s.takeWhile p).length)).map
        (fun j => (prevAt (j + 1) prev s, s.drop (j + 1), ([] : Caps))) := by
  obtain ⟨f, rfl⟩ : ∃ f, fu = f + 1 := ⟨fu - 1, by omega⟩
  rw [lazyPlus, run_seq_eq]
  cases s with
  | nil =>
    obtain ⟨g, rfl⟩ : ∃ g, f = g + 1 := ⟨f - 1, by omega⟩
    simp [run_cls_nil]
  | cons c t =>
    obtain ⟨g, rfl⟩ : ∃ g, f = g + 1 := ⟨f - 1, by omega⟩
    rw [run_cls_cons]
    by_cases hp : p c
    · simp only [hp, if_true, List.flatMap_cons, List.flatMap_nil, List.append_nil]
      rw [run_starL_cls p t (g + 1) (some c) (by simp at h; omega)]
      have htw : ((c :: t).takeWhile p).length = (t.takeWhile p).length + 1 := by
        simp [List.takeWhile_cons, hp]
      rw [htw, List.map_map]
      refine List.map_congr_left ?_
      intro i _
      simp [Function.comp, prevAt_succ_cons, List.drop_succ_cons]
    · simp only [hp, if_false, List.flatMap_nil]
      have htw : ((c :: t).takeWhile p).length = 0 := by simp [List.takeWhile_cons, hp]
      rw [htw]
      simp

/-- Greedy plus over a character class: descending consumption lengths. -/
theorem run_plusG_cls (p : Char → Bool) (s : List Char) (fu : Nat) (prev : Option Char)
    (h : s.length + 1 < fu) :
    run fu (.seq (.cls p) (.starG (.cls p))) prev s =
      (List.range ((s.takeWhile p).length)).reverse.map
        (fun j => (prevAt (j + 1) prev s, s.drop (j + 1), ([] : Caps))) := by
  obtain ⟨f, rfl⟩ : ∃ f, fu = f + 1 := ⟨fu - 1, by omega⟩
  rw [run_seq_eq]
  cases s with
  | nil =>
    obtain ⟨g, rfl⟩ : ∃ g, f = g + 1 := ⟨f - 1, by omega⟩
    simp [run_cls_nil]
  | cons c t =>
    obtain ⟨g, rfl⟩ : ∃ g, f = g + 1 := ⟨f - 1, by omega⟩
    rw [run_cls_cons]
    by_cases hp : p c
    · simp only [hp, if_true, List.flatMap_cons, List.flatMap_nil, List.append_nil]
      rw [run_starG_cls p t (g + 1) (some c) (by simp at h; omega)]
      have htw : ((c :: t).takeWhile p).length = (t.takeWhile p).length + 1 := by
        simp [List.takeWhile_cons, hp]
      rw [htw, List.map_map]
      refine List.map_congr_left ?_
      intro i _
      simp [Function.comp, prevAt_succ_cons, List.drop_succ_cons]
    · simp only [hp, if_false, List.flatMap_nil]
      have htw : ((c :: t).takeWhile p).length = 0 := by simp [List.takeWhile_cons, hp]
      rw [htw]
      simp

/-- Every result of `run` leaves a suffix of the input. -/
theorem run_rest_suffix : ∀ (fu : Nat) (re : RE) (prev : Option Char) (s : List Char)
    (pr : Option Char × List Char × Caps), pr ∈ run fu re prev s → pr.2.1 <:+ s := by
  intro fu
  induction fu with
  | zero => intro re prev s pr hpr; simp [run] at hpr
  | succ fu ih =>
    intro re prev s pr hpr
    cases re with
    | eps => simp [run_eps_eq] at hpr; simp [hpr]
    | lit c =>
      cases s with
      | nil => simp [run_lit_nil] at hpr
      | cons x xs =>
        rw [run_lit_cons] at hpr
        by_cases hx : x = c
        · simp [hx] at hpr
          simp [hpr]
        · simp [hx] at hpr
    | cls p =>
      cases s with
      | nil => simp [run_cls_nil] at hpr
      | cons x xs =>
        rw [run_cls_cons] at hpr
        by_cases hx : p x
        · simp [hx] at hpr
          simp [hpr]
        · simp [hx] at hpr
    | seq a b =>
      rw [run_seq_eq] at hpr
      simp only [List.mem_flatMap, List.mem_map] at hpr
      obtain ⟨pa, hpa, qb, hqb, rfl⟩ := hpr
      exact (ih b pa.1 pa.2.1 qb hqb).trans (ih a prev s pa hpa)
    | alt a b =>
      rw [run_alt_eq] at hpr
      rcases List.mem_append.mp hpr with h1 | h2
      · exact ih a prev s pr h1
      · exact ih b prev s pr h2
    | grp n a =>
      rw [run_grp_eq] at hpr
      simp only [List.mem_map] at hpr
      obtain ⟨pa, hpa, rfl⟩ := hpr
      exact ih a prev s pa hpa
    | starG a =>
      rw [run_starG_eq] at hpr
      rcases List.mem_append.mp hpr with h1 | h2
      · simp only [List.mem_flatMap] at h1
        obtain ⟨pa, hpa, hq⟩ := h1
        by_cases hlt : pa.2.1.length < s.length
        · simp only [hlt, if_true, List.mem_map] at hq
          obtain ⟨qr, hqr, rfl⟩ := hq
          exact (ih (.starG a) pa.1 pa.2.1 qr hqr).trans (ih a prev s pa hpa)
        · simp [hlt] at hq
      · simp at h2; simp [h2]
    | starL a =>
      rw [run_starL_eq] at hpr
      rcases List.mem_cons.mp hpr with h1 | h2
      · simp [h1]
      · simp only [List.mem_flatMap] at h2
        obtain ⟨pa, hpa, hq⟩ := h2
        by_cases hlt : pa.2.1.length < s.length
        · simp only [hlt, if_true, List.mem_map] at hq
          obtain ⟨qr, hqr, rfl⟩ := hq
          exact (ih (.starL a) pa.1 pa.2.1 qr hqr).trans (ih a prev s pa hpa)
        · simp [hlt] at hq
    | bolML =>
      rw [run_bolML_eq] at hpr
      split at hpr
      · simp at hpr; simp [hpr]
      · simp at hpr
    | eolML =>
      rw [run_eolML_eq] at hpr
      split at hpr
      · simp at hpr; simp [hpr]
      · simp at hpr
    | eolSL =>
      rw [run_eolSL_eq] at hpr
      split at hpr
      · simp at hpr; simp [hpr]
      · simp at hpr

/-- Every capture recorded by `run` is at most as long as the input. -/
theorem run_caps_le : ∀ (fu : Nat) (re : RE) (prev : Option Char) (s : List Char)
    (pr : Option Char × List Char × Caps), pr ∈ run fu re prev s →
    ∀ e ∈ pr.2.2, e.2.length ≤ s.length := by
  intro fu
  induction fu with
  | zero => intro re prev s pr hpr; simp [run] at hpr
  | succ fu ih =>
    intro re prev s pr hpr e he
    cases re with
    | eps => simp [run_eps_eq] at hpr; simp [hpr] at he
    | lit c =>
      cases s with
      | nil => simp [run_lit_nil] at hpr
      | cons x xs =>
        rw [run_lit_cons] at hpr
        by_cases hx : x = c
        · simp [hx] at hpr; simp [hpr] at he
        · simp [hx] at hpr
    | cls p =>
      cases s with
      | nil => simp [run_cls_nil] at hpr
      | cons x xs =>
        rw [run_cls_cons] at hpr
        by_cases hx : p x
        · simp [hx] at hpr; simp [hpr] at he
        · simp [hx] at hpr
    | seq a b =>
      rw [run_seq_eq] at hpr
      simp only [List.mem_flatMap, List.mem_map] at hpr
      obtain ⟨pa, hpa, qb, hqb, rfl⟩ := hpr
      simp only [List.mem_append] at he
      rcases he with h1 | h2
      · have hr := run_rest_suffix (fu) a prev s pa hpa
        exact (ih b pa.1 pa.2.1 qb hqb e h1).trans
          ((List.IsSuffix.length_le hr).trans (le_refl _))
      · exact ih a prev s pa hpa e h2
    | alt a b =>
      rw [run_alt_eq] at hpr
      rcases List.mem_append.mp hpr with h1 | h2
      · exact ih a prev s pr h1 e he
      · exact ih b prev s pr h2 e he
    | grp n a =>
      rw [run_grp_eq] at hpr
      simp only [List.mem_map] at hpr
      obtain ⟨pa, hpa, rfl⟩ := hpr
      simp only [List.mem_cons] at he
      rcases he with h1 | h2
      · subst h1; simp [List.length_take]
      · exact ih a prev s pa hpa e h2
    | starG a =>
      rw [run_starG_eq] at hpr
      rcases List.mem_append.mp hpr with h1 | h2
      · simp only [List.mem_flatMap] at h1
        obtain ⟨pa, hpa, hq⟩ := h1
        by_cases hlt : pa.2.1.length < s.length
        · simp only [hlt, if_true, List.mem_map] at hq
          obtain ⟨qr, hqr, rfl⟩ := hq
          simp only [List.mem_append] at he
          rcases he with h3 | h4
          · exact (ih (.starG a) pa.1 pa.2.1 qr hqr e h3).trans (le_of_lt hlt)
          · exact ih a prev s pa hpa e h4
        · simp [hlt] at hq
      · simp at h2
        rw [h2] at he
        simp at he
    | starL a =>
      rw [run_starL_eq] at hpr
      rcases List.mem_cons.mp hpr with h1 | h2
      · rw [h1] at he; simp at he
      · simp only [List.mem_flatMap] at h2
        obtain ⟨pa, hpa, hq⟩ := h2
        by_cases hlt : pa.2.1.length < s.length
        · simp only [hlt, if_true, List.mem_map] at hq
          obtain ⟨qr, hqr, rfl⟩ := hq
          simp only [List.mem_append] at he
          rcases he with h3 | h4
          · exact (ih (.starL a) pa.1 pa.2.1 qr hqr e h3).trans (le_of_lt hlt)
          · exact ih a prev s pa hpa e h4
        · simp [hlt] at hq
    | bolML =>
      rw [run_bolML_eq] at hpr
      split at hpr
      · simp at hpr; rw [hpr] at he; simp at he
      · simp at hpr
    | eolML =>
      rw [run_eolML_eq] at hpr
      split at hpr
      · simp at hpr; rw [hpr] at he; simp at he
      · simp at hpr
    | eolSL =>
      rw [run_eolSL_eq] at hpr
      split at hpr
      · simp at hpr; rw [hpr] at he; simp at he
      · simp at hpr

/-! ### String helper lemmas -/

theorem pyStrip_length_le (s : List Char) : (pyStrip s).length ≤ s.length := by
  unfold pyStrip
  calc ((s.dropWhile isPySpace).reverse.dropWhile isPySpace).reverse.length
      = ((s.dropWhile isPySpace).reverse.dropWhile isPySpace).length := by
        rw [List.length_reverse]
    _ ≤ (s.dropWhile isPySpace).reverse.length := (List.dropWhile_sublist _).length_le
    _ = (s.dropWhile isPySpace).length := by rw [List.length_reverse]
    _ ≤ s.length := (List.dropWhile_sublist _).length_le

theorem dropWhile_eq_self_of_head (p : Char → Bool) (l : List Char)
    (h : ∀ c, l.head? = some c → p c = false) : l.dropWhile p = l := by
  cases l with
  | nil => rfl
  | cons c t => simp [List.dropWhile_cons, h c rfl]

theorem pyStrip_eq_self_of_not_space (s : List Char)
    (h : ∀ c ∈ s, isPySpace c = false) : pyStrip s = s := by
  unfold pyStrip
  rw [dropWhile_eq_self_of_head _ s
    (fun c hc => h c (by cases s with | nil => simp at hc | cons x xs => simp at hc; simp [hc]))]
  rw [dropWhile_eq_self_of_head _ s.reverse
    (fun c hc => h c (by
      have hg : s.getLast? = some c := by rw [← List.head?_reverse]; exact hc
      exact List.mem_of_mem_getLast? (by simp [Option.mem_def, hg])))]
  exact List.reverse_reverse s

theorem stripSemis_eq_self (s : List Char) (h : s.getLast? ≠ some ';') :
    stripSemis s = s := by
  unfold stripSemis
  rw [dropWhile_eq_self_of_head _ s.reverse (fun c hc => by
    have := List.head?_reverse s
    rw [hc] at this
    simp only [beq_eq_false_iff_ne, ne_eq]
    intro hcs
    exact h (by rw [← this, hcs]))]
  exact List.reverse_reverse s

theorem subGo_succ (fu : Nat) (re : RE) (prev : Option Char) (s : List Char) :
    subGo (fu + 1) re prev s =
      match (run (fuelFor re s) re prev s).head? with
      | some pr =>
        if pr.2.1.length < s.length then subGo fu re pr.1 pr.2.1
        else
          match s with
          | [] => []
          | c :: t => c :: subGo fu re (some c) t
      | none =>
        match s with
        | [] => []
        | c :: t => c :: subGo fu re (some c) t := rfl

theorem subGo_length_le : ∀ (fu : Nat) (re : RE) (prev : Option Char) (s : List Char),
    (subGo fu re prev s).length ≤ s.length := by
  intro fu
  induction fu with
  | zero => intro re prev s; simp [subGo]
  | succ fu ih =>
    intro re prev s
    rw [subGo_succ]
    rcases hh : (run (fuelFor re s) re prev s).head? with _ | pr
    · cases s with
      | nil => simp
      | cons c tl =>
        simpa using ih re (some c) tl
    · by_cases hlt : pr.2.1.length < s.length
      · simp only [hlt, if_true]
        exact (ih re pr.1 pr.2.1).trans (le_of_lt hlt)
      · simp only [hlt, if_false]
        cases s with
        | nil => simp
        | cons c tl =>
          simpa using ih re (some c) tl

theorem reSub_length_le (re : RE) (s : List Char) : (reSub re s).length ≤ s.length :=
  subGo_length_le _ re none s

theorem pySplit_ne_nil (sep : Char) : ∀ s, pySplit sep s ≠ [] := by
  intro s
  cases s with
  | nil => simp [pySplit]
  | cons c t =>
    rw [pySplit]
    by_cases h : c = sep
    · simp [h]
    · simp only [h, if_false]
      rcases hs : pySplit sep t with _ | ⟨r, rs⟩
      · simp
      · simp

theorem pySplit_part_le (sep : Char) : ∀ (s r : List Char), r ∈ pySplit sep s →
    r.length ≤ s.length ∧ (sep ∈ s → r.length < s.length) := by
  intro s
  induction s with
  | nil =>
    intro r hr
    simp [pySplit] at hr
    simp [hr]
  | cons c t ih =>
    intro r hr
    rw [pySplit] at hr
    by_cases h : c = sep
    · simp only [h, if_true] at hr
      rcases List.mem_cons.mp hr with h1 | h2
      · subst h1; simp
      · have := (ih r h2).1
        constructor
        · simpa using Nat.le_succ_of_le this
        · intro _; simpa using Nat.lt_succ_of_le this
    · simp only [h, if_false] at hr
      rcases hs : pySplit sep t with _ | ⟨r0, rs⟩
      · exact absurd hs (pySplit_ne_nil sep t)
      · rw [hs] at hr
        rcases List.mem_cons.mp hr with h1 | h2
        · subst h1
          have h0 := (ih r0 (by rw [hs]; exact List.mem_cons_self _ _))
          constructor
          · simpa using Nat.succ_le_succ h0.1
          · intro hmem
            have hsep : sep ∈ t := by
              rcases List.mem_cons.mp hmem with h3 | h4
              · exact absurd h3.symm h
              · exact h4
            simpa using Nat.succ_lt_succ (h0.2 hsep)
        · have h0 := ih r (by rw [hs]; exact List.mem_cons_of_mem _ h2)
          constructor
          · simpa using Nat.le_succ_of_le h0.1
          · intro _; simpa using Nat.lt_succ_of_le h0.1

theorem isSub_iff (p : List Char) : ∀ s, isSub p s = true ↔ p <:+: s := by
  intro s
  induction s with
  | nil => simp [isSub, List.isEmpty_iff, List.infix_nil]
  | cons c t ih =>
    rw [isSub]
    simp only [Bool.or_eq_true, List.isPrefixOf_iff_prefix, ih]
    constructor
    · rintro (h1 | h2)
      · exact h1.isInfix
      · exact List.infix_cons h2
    · intro h
      rcases List.infix_cons_iff.mp h with h1 | h2
      · exact Or.inl h1
      · exact Or.inr h2

theorem mem_of_isSub (p s : List Char) (c : Char) (hp : c ∈ p) (h : isSub p s = true) :
    c ∈ s := ((isSub_iff p s).mp h).sublist.subset hp

theorem isSub_false_of_missing (p s : List Char) (c : Char) (hp : c ∈ p)
    (h : c ∉ s) : isSub p s = false := by
  by_contra hne
  exact h (mem_of_isSub p s c hp (by
    cases hb : isSub p s
    · exact absurd hb hne
    · rfl))

theorem iterGo_succ (fu : Nat) (re : RE) (prev : Option Char) (s : List Char) :
    iterGo (fu + 1) re prev s =
      match (run (fuelFor re s) re prev s).head? with
      | some pr =>
        if pr.2.1.length < s.length then
          (s.take (s.length - pr.2.1.length), pr.2.2) :: iterGo fu re pr.1 pr.2.1
        else
          match s with
          | [] => [(s.take (s.length - pr.2.1.length), pr.2.2)]
          | c :: t => (s.take (s.length - pr.2.1.length), pr.2.2) :: iterGo fu re (some c) t
      | none =>
        match s with
        | [] => []
        | c :: t => iterGo fu re (some c) t := rfl

theorem searchGo_succ (fu : Nat) (re : RE) (prev : Option Char) (s : List Char) :
    searchGo (fu + 1) re prev s =
      match (run (fuelFor re s) re prev s).head? with
      | some pr => some pr.2.2
      | none =>
        match s with
        | [] => none
        | c :: t => searchGo fu re (some c) t := rfl

theorem subGo_fuel : ∀ (fu fu' : Nat) (re : RE) (prev : Option Char) (s : List Char),
    s.length < fu → s.length < fu' → subGo fu re prev s = subGo fu' re prev s := by
  intro fu
  induction fu with
  | zero => intro fu' re prev s h; omega
  | succ fu ih =>
    intro fu' re prev s h h'
    obtain ⟨f', rfl⟩ : ∃ f', fu' = f' + 1 := ⟨fu' - 1, by omega⟩
    rw [subGo_succ, subGo_succ]
    rcases hh : (run (fuelFor re s) re prev s).head? with _ | pr
    · cases s with
      | nil => rfl
      | cons c tl =>
        simp only []
        rw [ih f' re (some c) tl (by simp at h; omega) (by simp at h'; omega)]
    · by_cases hlt : pr.2.1.length < s.length
      · simp only [hlt, if_true]
        rw [ih f' re pr.1 pr.2.1 (by omega) (by omega)]
      · simp only [hlt, if_false]
        cases s with
        | nil => rfl
        | cons c tl =>
          simp only []
          rw [ih f' re (some c) tl (by simp at h; omega) (by simp at h'; omega)]

theorem iterGo_fuel : ∀ (fu fu' : Nat) (re : RE) (prev : Option Char) (s : List Char),
    s.length < fu → s.length < fu' → iterGo fu re prev s = iterGo fu' re prev s := by
  intro fu
  induction fu with
  | zero => intro fu' re prev s h; omega
  | succ fu ih =>
    intro fu' re prev s h h'
    obtain ⟨f', rfl⟩ : ∃ f', fu' = f' + 1 := ⟨fu' - 1, by omega⟩
    rw [iterGo_succ, iterGo_succ]
    rcases hh : (run (fuelFor re s) re prev s).head? with _ | pr
    · cases s with
      | nil => rfl
      | cons c tl =>
        simp only []
        rw [ih f' re (some c) tl (by simp at h; omega) (by simp at h'; omega)]
    · by_cases hlt : pr.2.1.length < s.length
      · simp only [hlt, if_true]
        rw [ih f' re pr.1 pr.2.1 (by omega) (by omega)]
      · simp only [hlt, if_false]
        cases s with
        | nil => rfl
        | cons c tl =>
          simp only []
          rw [ih f' re (some c) tl (by simp at h; omega) (by simp at h'; omega)]

theorem searchGo_fuel : ∀ (fu fu' : Nat) (re : RE) (prev : Option Char) (s : List Char),
    s.length < fu → s.length < fu' → searchGo fu re prev s = searchGo fu' re prev s := by
  intro fu
  induction fu with
  | zero => intro fu' re prev s h; omega
  | succ fu ih =>
    intro fu' re prev s h h'
    obtain ⟨f', rfl⟩ : ∃ f', fu' = f' + 1 := ⟨fu' - 1, by omega⟩
    rw [searchGo_succ, searchGo_succ]
    rcases hh : (run (fuelFor re s) re prev s).head? with _ | pr
    · cases s with
      | nil => rfl
      | cons c tl =>
        simp only []
        rw [ih f' re (some c) tl (by simp at h; omega) (by simp at h'; omega)]
    · rfl

/-- Captures of a `Record<...>` match are at least 7 characters shorter
than the whole expression (the literal `Record<` is consumed first). -/
theorem reMatch_recordPat_caps (s : List Char) (pr : Option Char × List Char × Caps)
    (h : reMatch recordPat s = some pr) :
    ∀ e ∈ pr.2.2, e.2.length + 7 ≤ s.length := by
  have hfu : fuelFor recordPat s = 43 * (s.length + 1) + 1 := rfl
  rw [reMatch, hfu, show recordPat = .seq (lits (("Record<").data)) recordTail from rfl,
    run_seq_eq] at h
  rw [run_lits (("Record<").data) _ none s (by
    simp only [show (("Record<").data).length = 7 from rfl]
    have : 43 ≤ 43 * (s.length + 1) := Nat.le_mul_of_pos_right 43 (by omega)
    omega)] at h
  by_cases hpre : (("Record<").data).isPrefixOf s
  · simp only [hpre, if_true, List.flatMap_cons, List.flatMap_nil, List.append_nil] at h
    rcases hq : run (43 * (s.length + 1)) recordTail
        (prevAfter (("Record<").data) none) (s.drop (("Record<").data).length)
      with _ | ⟨q, tl⟩
    · rw [hq] at h; simp at h
    · rw [hq] at h
      simp only [List.map_cons, List.head?_cons, Option.some_inj] at h
      intro e he
      have hq_mem : q ∈ run (43 * (s.length + 1)) recordTail
          (prevAfter (("Record<").data) none) (s.drop (("Record<").data).length) := by
        rw [hq]; exact List.mem_cons_self _ _
      have hcap := run_caps_le _ _ _ _ q hq_mem e (by
        rw [← h] at he
        simpa using he)
      have hlen7 : 7 ≤ s.length := by
        have := (List.isPrefixOf_iff_prefix.mp hpre).sublist.length_le
        simpa using this
      simp only [List.length_drop, show (("Record<").data).length = 7 from rfl] at hcap
      omega
  · simp [hpre] at h

/-- The normalization prefix never lengthens the expression. -/
theorem normalize_ts_length_le (ts0 : List Char) (opt0 : Bool) :
    (normalize_ts ts0 opt0).1.length ≤ ts0.length := by
  unfold normalize_ts
  have h1 : (pyStrip ts0).length ≤ ts0.length := pyStrip_length_le ts0
  by_cases hq : (pyStrip ts0).getLast? = some '?'
  · simp only [hq, if_true]
    have h2 : (pyStrip (pyStrip ts0).dropLast).length ≤ ts0.length := by
      have := pyStrip_length_le (pyStrip ts0).dropLast
      have := List.length_dropLast (pyStrip ts0)
      omega
    by_cases hs : isSub ((" | undefined").data) (pyStrip (pyStrip ts0).dropLast) ||
        isSub ((" | null").data) (pyStrip (pyStrip ts0).dropLast)
    · simp only [hs, if_true]
      have := pyStrip_length_le (reSub subPat (pyStrip (pyStrip ts0).dropLast))
      have := reSub_length_le subPat (pyStrip (pyStrip ts0).dropLast)
      omega
    · simp only [hs, if_false]
      exact h2
  · simp only [hq, if_false]
    by_cases hs : isSub ((" | undefined").data) (pyStrip ts0) ||
        isSub ((" | null").data) (pyStrip ts0)
    · simp only [hs, if_true]
      have := pyStrip_length_le (reSub subPat (pyStrip ts0))
      have := reSub_length_le subPat (pyStrip ts0)
      omega
    · simp only [hs, if_false]
      exact h1

/-- `convert_type_zod` only calls `rec` on strictly shorter expressions. -/
theorem convert_type_zod_congr (env : ConvEnv) (rec1 rec2 : List Char → Bool → List Char)
    (ts3 : List Char)
    (h : ∀ ts' opt', ts'.length < ts3.length → rec1 ts' opt' = rec2 ts' opt') :
    convert_type_zod env rec1 ts3 = convert_type_zod env rec2 ts3 := by
  unfold convert_type_zod
  cases hlk : List.lookup ts3 TYPE_MAP with
  | some z => rfl
  | none =>
    simp only
    by_cases h1 : ("[]").data.isSuffixOf ts3
    · rw [if_pos h1, if_pos h1]
      rw [h _ false (by
        have h2 : 2 ≤ ts3.length := by
          have := (List.isSuffixOf_iff_suffix.mp h1).sublist.length_le
          simpa using this
        have h3 := pyStrip_length_le ts3.dropLast.dropLast
        have h4 := List.length_dropLast ts3
        have h5 := List.length_dropLast ts3.dropLast
        omega)]
    · rw [if_neg h1, if_neg h1]
      by_cases h2 : (("Array<").data.isPrefixOf ts3 ∧ ts3.getLast? = some '>')
      · rw [if_pos h2, if_pos h2]
        rw [h _ false (by
          have h3 : 6 ≤ ts3.length := by
            have := (List.isPrefixOf_iff_prefix.mp h2.1).sublist.length_le
            simpa using this
          have h4 := pyStrip_length_le ((ts3.drop 6).dropLast)
          have h5 := List.length_dropLast (ts3.drop 6)
          have h6 := List.length_drop 6 ts3
          omega)]
      · rw [if_neg h2, if_neg h2]
        by_cases h3 : ("Record<").data.isPrefixOf ts3
        · rw [if_pos h3, if_pos h3]
          cases hm : reMatch recordPat ts3 with
          | none => simp only [hm]
          | some pr =>
            simp only [hm]
            rw [h _ false (by
              cases hcg : capGet pr.2.2 2 with
              | none =>
                simp only [hcg, Option.getD_none, List.length_nil]
                have : 7 ≤ ts3.length := by
                  have := (List.isPrefixOf_iff_prefix.mp h3).sublist.length_le
                  simpa using this
                omega
              | some v =>
                simp only [hcg, Option.getD_some]
                obtain ⟨e, he, rfl⟩ : ∃ e, List.find? (fun p => p.1 == 2) pr.2.2 = some e ∧
                    e.2 = v := by
                  rcases Option.map_eq_some'.mp hcg with ⟨e, he1, he2⟩
                  exact ⟨e, he1, he2⟩
                have := reMatch_recordPat_caps ts3 pr hm e (List.mem_of_find?_eq_some he)
                omega)]
        · rw [if_neg h3, if_neg h3]
          by_cases h4 : isSub ((" | ").data) ts3 = true
          · rw [if_pos h4, if_pos h4]
            have hpipe : '|' ∈ ts3 := mem_of_isSub _ _ '|' (by decide) h4
            have hmap : List.map (fun tp => rec1 (pyStrip tp) false) (pySplit '|' ts3) =
                List.map (fun tp => rec2 (pyStrip tp) false) (pySplit '|' ts3) := by
              refine List.map_congr_left ?_
              intro tp htp
              refine h _ false ?_
              have hb := (pySplit_part_le '|' ts3 tp htp).2 hpipe
              have := pyStrip_length_le tp
              omega
            rw [hmap]
          · rw [if_neg h4, if_neg h4]

/-- Fuel irrelevance for `convert_typeF`: any sufficient fuel computes
`convert_type`. -/
theorem convert_typeF_eq (env : ConvEnv) :
    ∀ (fu : Nat) (ts : List Char) (opt : Bool), ts.length < fu →
    convert_typeF env fu ts opt = convert_type env ts opt := by
  intro fu
  induction fu using Nat.strong_induction_on with
  | _ fu ih =>
    intro ts opt hlen
    obtain ⟨f, rfl⟩ : ∃ f, fu = f + 1 := ⟨fu - 1, by omega⟩
    show convert_type_body env (convert_typeF env f) ts opt = convert_type env ts opt
    have hR : convert_type env ts opt = convert_type_body env (convert_typeF env ts.length) ts opt := rfl
    rw [hR]
    simp only [convert_type_body]
    have hts3 := normalize_ts_length_le ts opt
    have hz : convert_type_zod env (convert_typeF env f) (normalize_ts ts opt).1 =
        convert_type_zod env (convert_typeF env ts.length) (normalize_ts ts opt).1 := by
      refine convert_type_zod_congr env _ _ _ ?_
      intro ts' opt' hlt
      have hlt0 : ts'.length < ts.length := lt_of_lt_of_le hlt hts3
      rw [ih f (by omega) ts' opt' (by omega),
        ih ts.length (by omega) ts' opt' (by omega)]
    rw [hz]

/-! ### More string and list helpers -/

theorem ne_of_head?_ne {a b : List Char} (h : a.head? ≠ b.head?) : a ≠ b :=
  fun e => h (by rw [e])

theorem ne_of_getLast?_ne {a b : List Char} (h : a.getLast? ≠ b.getLast?) : a ≠ b :=
  fun e => h (by rw [e])

theorem lookup_eq_none_of_ne {α : Type} : ∀ (M : List (List Char × α)) (s : List Char),
    (∀ kv ∈ M, kv.1 ≠ s) → List.lookup s M = none := by
  intro M
  induction M with
  | nil => intro s _; rfl
  | cons kv M ih =>
    intro s h
    rw [List.lookup]
    have hne : (s == kv.1) = false := by
      rw [beq_eq_false_iff_ne]
      exact fun e => h kv (List.mem_cons_self _ _) e.symm
    rw [hne]
    exact ih s (fun kv' hm => h kv' (List.mem_cons_of_mem _ hm))

theorem dropWhile_append_of_head (p : Char → Bool) :
    ∀ (a b : List Char), (∀ c, b.head? = some c → p c = false) →
    (a ++ b).dropWhile p = a.dropWhile p ++ b := by
  intro a
  induction a with
  | nil =>
    intro b hb
    simpa using dropWhile_eq_self_of_head p b hb
  | cons c t ih =>
    intro b hb
    by_cases hc : p c
    · simp only [List.cons_append, List.dropWhile_cons, hc, if_true]
      exact ih b hb
    · simp [List.cons_append, List.dropWhile_cons, hc]

theorem dropWhile_idem (p : Char → Bool) : ∀ (s : List Char),
    (s.dropWhile p).dropWhile p = s.dropWhile p := by
  intro s
  induction s with
  | nil => rfl
  | cons c t ih =>
    by_cases hc : p c
    · simp only [List.dropWhile_cons, hc, if_true]
      exact ih
    · simp [List.dropWhile_cons, hc]

theorem getLast?_of_suffix {u s : List Char} (h : u <:+ s) (hu : u ≠ []) :
    s.getLast? = u.getLast? := by
  obtain ⟨w, rfl⟩ := h
  rw [List.getLast?_append]
  cases hg : u.getLast? with
  | none => exact absurd (List.getLast?_eq_none_iff.mp hg) hu
  | some c => rfl

theorem rstrip_eq_self (p : Char → Bool) (s : List Char)
    (h : ∀ c, s.getLast? = some c → p c = false) :
    (s.reverse.dropWhile p).reverse = s := by
  rw [dropWhile_eq_self_of_head p s.reverse (fun c hc => h c (by
    rw [← List.head?_reverse]; exact hc))]
  exact List.reverse_reverse s

theorem pyStrip_eq_lstrip (s : List Char)
    (h : ∀ c, s.getLast? = some c → isPySpace c = false) :
    pyStrip s = s.dropWhile isPySpace := by
  unfold pyStrip
  apply rstrip_eq_self
  intro c hc
  rcases hd : s.dropWhile isPySpace with _ | ⟨x, xs⟩
  · rw [hd] at hc; simp at hc
  · have hsfx : s.dropWhile isPySpace <:+ s := List.dropWhile_suffix _
    have := getLast?_of_suffix hsfx (by rw [hd]; simp)
    exact h c (this.trans hc)

theorem pyStrip_eq_self_of_ends (s : List Char)
    (h1 : ∀ c, s.head? = some c → isPySpace c = false)
    (h2 : ∀ c, s.getLast? = some c → isPySpace c = false) :
    pyStrip s = s := by
  rw [pyStrip_eq_lstrip s h2]
  exact dropWhile_eq_self_of_head _ s h1

theorem pyStrip_dropWhile (s : List Char) :
    pyStrip (s.dropWhile isPySpace) = pyStrip s := by
  unfold pyStrip
  rw [dropWhile_idem]

theorem isSub_count_le (p s : List Char) (c : Char) (h : isSub p s = true) :
    p.count c ≤ s.count c :=
  ((isSub_iff p s).mp h).sublist.count_le c

theorem count_eq_zero_of_not_mem {s : List Char} {c : Char} (h : c ∉ s) :
    s.count c = 0 := List.count_eq_zero.mpr h

theorem suffix_brackets_getLast {s : List Char}
    (h : ("[]").data.isSuffixOf s = true) : s.getLast? = some ']' := by
  have hs := List.isSuffixOf_iff_suffix.mp h
  rw [getLast?_of_suffix hs (by decide)]
  rfl

/-- First nonempty block of a `flatMap` over `List.range`. -/
theorem flatMap_range_first {A : Type} : ∀ (j0 N : Nat) (f : Nat → List A)
    (y : A) (t : List A), j0 < N → (∀ j < j0, f j = []) → f j0 = y :: t →
    ∃ tl, (List.range N).flatMap f = y :: tl := by
  intro j0
  induction j0 with
  | zero =>
    intro N f y t h0 _ hy
    obtain ⟨m, rfl⟩ : ∃ m, N = m + 1 := ⟨N - 1, by omega⟩
    rw [List.range_succ_eq_map, List.flatMap_cons, hy]
    exact ⟨_, rfl⟩
  | succ k ih =>
    intro N f y t h0 hprev hy
    obtain ⟨m, rfl⟩ : ∃ m, N = m + 1 := ⟨N - 1, by omega⟩
    rw [List.range_succ_eq_map, List.flatMap_cons, hprev 0 (by omega),
      List.nil_append, List.flatMap_map]
    exact ih m (fun j => f (j + 1)) y t (by omega)
      (fun j hj => hprev (j + 1) (by omega)) hy

/-- Compose two head results through `seq`. -/
theorem firstRes_seq {fu : Nat} {a b : RE} {prev : Option Char} {s : List Char}
    {x y : Option Char × List Char × Caps}
    (hx : ∃ tl, run fu a prev s = x :: tl)
    (hy : ∃ tl, run fu b x.1 x.2.1 = y :: tl) :
    ∃ tl, run (fu + 1) (.seq a b) prev s = (y.1, y.2.1, y.2.2 ++ x.2.2) :: tl := by
  obtain ⟨t1, h1⟩ := hx
  obtain ⟨t2, h2⟩ := hy
  rw [run_seq_eq, h1, List.flatMap_cons, h2, List.map_cons, List.cons_append]
  exact ⟨_, rfl⟩

theorem run_wsStar_head (s : List Char) (fu : Nat) (prev : Option Char)
    (h : ∀ c, s.head? = some c → isPySpace c = false) (hfu : s.length + 1 < fu) :
    run fu wsStar prev s = [(prev, s, [])] := by
  rw [show wsStar = RE.starG (RE.cls isPySpace) from rfl,
    run_starG_cls isPySpace s fu prev hfu]
  have htw : (s.takeWhile isPySpace).length = 0 := by
    cases s with
    | nil => rfl
    | cons c t => simp [List.takeWhile_cons, h c rfl]
  rw [htw]
  simp [List.range_succ, prevAt_zero]

theorem run_wsStar_one (c : Char) (s : List Char) (fu : Nat) (prev : Option Char)
    (hc : isPySpace c = true) (h : ∀ d, s.head? = some d → isPySpace d = false)
    (hfu : s.length + 2 < fu) :
    run fu wsStar prev (c :: s) = [(some c, s, []), (prev, c :: s, [])] := by
  rw [show wsStar = RE.starG (RE.cls isPySpace) from rfl,
    run_starG_cls isPySpace (c :: s) fu prev (by simpa using hfu)]
  have htw : ((c :: s).takeWhile isPySpace).length = 1 := by
    cases s with
    | nil => simp [List.takeWhile_cons, hc]
    | cons d t => simp [List.takeWhile_cons, hc, h d rfl]
  rw [htw]
  simp [List.range_succ, prevAt_zero, prevAt_succ_cons, List.range_succ_eq_map]

theorem takeWhile_append_all (p : Char → Bool) : ∀ (a b : List Char),
    (∀ c ∈ a, p c = true) → (a ++ b).takeWhile p = a ++ b.takeWhile p := by
  intro a
  induction a with
  | nil => intro b _; rfl
  | cons c t ih =>
    intro b h
    simp only [List.cons_append, List.takeWhile_cons, h c (List.mem_cons_self _ _), if_true]
    rw [ih b (fun d hd => h d (List.mem_cons_of_mem _ hd))]

/-! ### Claim proofs -/

theorem convert_type_unfold (env : ConvEnv) (s : List Char) (opt : Bool) :
    convert_type env s opt =
      (if (normalize_ts s opt).2 then
        convert_type_zod env (convert_typeF env s.length) (normalize_ts s opt).1 ++
          (".optional()").data
      else convert_type_zod env (convert_typeF env s.length) (normalize_ts s opt).1) := rfl

theorem normalize_ts_id (s : List Char) (opt : Bool) (h1 : pyStrip s = s)
    (h2 : s.getLast? ≠ some '?')
    (h3 : isSub ((" | undefined").data) s = false)
    (h4 : isSub ((" | null").data) s = false) :
    normalize_ts s opt = (s, opt) := by
  unfold normalize_ts
  simp only [h1, h2, if_false, h3, h4, Bool.or_self, if_neg]
  split
  · simp_all
  · rfl

/-- C1.  Conversion is total by construction (every function here is a total
Lean function); an expression matched by no earlier rule produces the
annotated `z.any()` fallback, and `convert_file` still emits a complete
output containing that fallback. -/
theorem claim_C1_fallback_total :
    (∀ (env : ConvEnv) (s : List Char) (opt : Bool),
      pyStrip s = s →
      s.getLast? ≠ some '?' →
      isSub ((" | undefined").data) s = false →
      isSub ((" | null").data) s = false →
      List.lookup s TYPE_MAP = none →
      ("[]").data.isSuffixOf s = false →
      ¬(("Array<").data.isPrefixOf s ∧ s.getLast? = some '>') →
      ("Record<").data.isPrefixOf s = false →
      isSub ((" | ").data) s = false →
      s.head? ≠ some quoteS →
      s.head? ≠ some quoteD →
      hasKey env.interfaces s = false →
      hasKey env.types s = false →
      hasKey env.enums s = false →
      convert_type env s opt =
        ("z.any() /* TODO: define schema for ").data ++ s ++ (" */").data ++
          (if opt then (".optional()").data else [])) ∧
    isSub (("z.any() /* TODO: define schema for Foo */").data)
      (convert_file (("interface A \x7b x: Foo; \x7d").data)) = true := by
  constructor
  · intro env s opt h1 h2 h3 h4 h5 h6 h7 h8 h9 h10 h11 h12 h13 h14
    rw [convert_type_unfold, normalize_ts_id s opt h1 h2 h3 h4]
    have hz : convert_type_zod env (convert_typeF env s.length) s =
        ("z.any() /* TODO: define schema for ").data ++ s ++ (" */").data := by
      unfold convert_type_zod
      rw [h5]
      simp only
      rw [if_neg (by simp [h6]), if_neg h7, if_neg (by simp [h8]), if_neg (by simp [h9]),
        if_neg (by rintro (hq | hq); exacts [h10 hq, h11 hq]),
        if_neg (by simp [h12, h13, h14])]
    rw [hz]
    cases opt <;> simp
  · decide

/-- C10.  An enum member with an unquoted initializer contributes two
entries: the identifier and the initializer token, so the emitted
enumeration contains values matching no declared member name. -/
theorem claim_C10_unquoted_initializer :
    parse_enum (("enum E \x7b\n  Status = 1,\n  Other = 2\n\x7d").data) =
      some (("E").data, [("Status").data, ("1").data, ("Other").data, ("2").data]) ∧
    enum_to_zod (("E").data) [("Status").data, ("1").data, ("Other").data, ("2").data] =
      ("export const ESchema = z.enum([\"Status\", \"1\", \"Other\", \"2\"]);\n\nexport type E = z.infer<typeof ESchema>;").data := by
  constructor
  · decide
  · decide

/-- C7.  A one-value enum becomes a single literal validator; two or more
values become a `z.enum` listing all values in declared order; a member
without an explicit quoted value contributes its identifier text, as the
`RED`/`GREEN = "green_value"` example shows. -/
theorem claim_C7_enum_values :
    (∀ (name v : List Char),
      enum_to_zod name [v] =
        ("export const ").data ++ name ++ ("Schema = z.literal(\"").data ++ v ++
          ("\");\n\nexport type ").data ++ name ++ (" = z.infer<typeof ").data ++ name ++
          ("Schema>;").data) ∧
    (∀ (name : List Char) (values : List (List Char)), 2 ≤ values.length →
      enum_to_zod name values =
        ("export const ").data ++ name ++ ("Schema = z.enum([").data ++
          List.intercalate ((", ").data)
            (values.map (fun v => [quoteD] ++ v ++ [quoteD])) ++
          ("]);\n\nexport type ").data ++ name ++ (" = z.infer<typeof ").data ++ name ++
          ("Schema>;").data) ∧
    parse_enum (("enum Color \x7b\n  RED,\n  GREEN = \"green_value\"\n\x7d").data) =
      some (("Color").data, [("RED").data, ("green_value").data]) ∧
    enum_to_zod (("Color").data) [("RED").data, ("green_value").data] =
      ("export const ColorSchema = z.enum([\"RED\", \"green_value\"]);\n\nexport type Color = z.infer<typeof ColorSchema>;").data := by
  refine ⟨?_, ?_, by decide, by decide⟩
  · intro name v
    simp [enum_to_zod, List.intercalate, nl, quoteD]
  · intro name values h
    have hne : values.length ≠ 1 := by omega
    simp only [enum_to_zod, hne, if_false, nl]
    simp [List.intercalate]

theorem claim_C1_witness :
    pyStrip (("Foo").data) = ("Foo").data ∧
    convert_type ⟨[], [], []⟩ (("Foo").data) false =
      ("z.any() /* TODO: define schema for Foo */").data := by
  constructor
  · decide
  · have := claim_C1_fallback_total.1 ⟨[], [], []⟩ (("Foo").data) false
      (by decide) (by decide) (by decide) (by decide) (by decide) (by decide)
      (by decide) (by decide) (by decide) (by decide) (by decide) (by decide)
      (by decide) (by decide)
    simpa using this

theorem claim_C7_witness :
    2 ≤ ([("a").data, ("b").data] : List (List Char)).length ∧
    enum_to_zod (("E").data) [("a").data, ("b").data] =
      ("export const ").data ++ ("E").data ++ ("Schema = z.enum([").data ++
        List.intercalate ((", ").data)
          (([("a").data, ("b").data]).map (fun v => [quoteD] ++ v ++ [quoteD])) ++
        ("]);\n\nexport type ").data ++ ("E").data ++ (" = z.infer<typeof ").data ++
        ("E").data ++ ("Schema>;").data :=
  ⟨by decide, claim_C7_enum_values.2.1 (("E").data) [("a").data, ("b").data] (by decide)⟩

theorem not_space_of_word (c : Char) (h : isWordChar c = true) : isPySpace c = false := by
  cases hs : isPySpace c
  · rfl
  · exfalso
    unfold isPySpace at hs
    simp only [Bool.or_eq_true, beq_iff_eq] at hs
    rcases hs with ((((h1 | h1) | h1) | h1) | h1) | h1 <;> subst h1 <;>
      exact absurd h (by decide)

theorem word_not_mem (s : List Char) (hw : ∀ c ∈ s, isWordChar c = true) (c : Char)
    (hc : isWordChar c = false) : c ∉ s := fun hm => by
  rw [hw c hm] at hc
  exact Bool.noConfusion hc

/-- C6 counterexample: with an interface named `string` in the registry, the
expression `string` still converts through `TYPE_MAP`, not to `stringSchema`. -/
theorem claim_C6_counterexample :
    convert_type ⟨[(("string").data, ("x").data)], [], []⟩ (("string").data) false =
      ("z.string()").data ∧
    ("z.string()").data ≠ ("string").data ++ ("Schema").data := by
  constructor
  · decide
  · decide

/-- C6 (amended).  A type expression that exactly matches a declared name
and is not one of the nine built-in primitive names converts to a
reference `NameSchema`, never an inlined definition. -/
theorem claim_C6_reference_schema (env : ConvEnv) (name : List Char)
    (hne : name ≠ [])
    (hw : ∀ c ∈ name, isWordChar c = true)
    (hlk : List.lookup name TYPE_MAP = none)
    (hmem : (hasKey env.interfaces name || hasKey env.types name ||
      hasKey env.enums name) = true) :
    convert_type env name false = name ++ ("Schema").data := by
  have hstrip : pyStrip name = name :=
    pyStrip_eq_self_of_not_space name (fun c hc => not_space_of_word c (hw c hc))
  have hq : name.getLast? ≠ some '?' := by
    intro h
    exact word_not_mem name hw '?' (by decide)
      (List.mem_of_mem_getLast? (by simp [Option.mem_def, h]))
  have hsp : ' ' ∉ name := word_not_mem name hw ' ' (by decide)
  have h3 : isSub ((" | undefined").data) name = false :=
    isSub_false_of_missing _ _ ' ' (by decide) hsp
  have h4 : isSub ((" | null").data) name = false :=
    isSub_false_of_missing _ _ ' ' (by decide) hsp
  rw [convert_type_unfold, normalize_ts_id name false hstrip hq h3 h4]
  rw [if_neg (by simp)]
  unfold convert_type_zod
  rw [hlk]
  simp only
  rw [if_neg (by
    intro hb
    exact word_not_mem name hw ']' (by decide)
      ((List.isSuffixOf_iff_suffix.mp hb).sublist.subset
        (show ']' ∈ (("[]").data) by decide)))]
  rw [if_neg (by
    rintro ⟨hpre, hlast⟩
    exact word_not_mem name hw '<' (by decide)
      ((List.isPrefixOf_iff_prefix.mp hpre).sublist.subset
        (show '<' ∈ (("Array<").data) by decide)))]
  rw [if_neg (by
    intro hpre
    exact word_not_mem name hw '<' (by decide)
      ((List.isPrefixOf_iff_prefix.mp hpre).sublist.subset
        (show '<' ∈ (("Record<").data) by decide)))]
  rw [if_neg (by
    intro hb
    exact hsp (mem_of_isSub _ _ ' ' (by decide) hb))]
  rw [if_neg (by
    rintro (hh | hh)
    · exact word_not_mem name hw quoteS (by decide)
        (List.mem_of_mem_head? (by simp [Option.mem_def, hh]))
    · exact word_not_mem name hw quoteD (by decide)
        (List.mem_of_mem_head? (by simp [Option.mem_def, hh])))]
  rw [if_pos hmem]

theorem claim_C6_witness :
    (("Foo").data ≠ ([] : List Char)) ∧
    convert_type ⟨[((("Foo").data), ("y").data)], [], []⟩ (("Foo").data) false =
      ("Foo").data ++ ("Schema").data := by
  refine ⟨by decide, claim_C6_reference_schema ⟨[((("Foo").data), ("y").data)], [], []⟩
    (("Foo").data) (by decide) (by decide) (by decide) (by decide)⟩

/-- C2 counterexample: a `|` nested inside `Array<...>` IS used as a split
point, so `Array<a | b> | c` is split into three garbage branches instead
of two balanced ones. -/
theorem claim_C2_counterexample :
    convert_type ⟨[], [], []⟩ (("Array<a | b> | c").data) false =
      ("z.union([z.any() /* TODO: define schema for Array<a */, z.any() /* TODO: define schema for b> */, z.any() /* TODO: define schema for c */])").data ∧
    convert_type ⟨[], [], []⟩ (("Array<a | b> | c").data) false ≠
      ("z.union([").data ++ convert_type ⟨[], [], []⟩ (("Array<a | b>").data) false ++
        (", ").data ++ convert_type ⟨[], [], []⟩ (("c").data) false ++ ("])").data := by
  constructor
  · decide
  · decide

/-- C2 (amended).  When the union rule fires, `convert_type` splits at
EVERY `|` occurrence, nested or not, converts each stripped branch
independently, and wraps the results in `z.union([...])`. -/
theorem claim_C2_union_splits (env : ConvEnv) (s : List Char) (opt : Bool)
    (h1 : pyStrip s = s)
    (h2 : s.getLast? ≠ some '?')
    (h3 : isSub ((" | undefined").data) s = false)
    (h4 : isSub ((" | null").data) s = false)
    (h5 : List.lookup s TYPE_MAP = none)
    (h6 : ("[]").data.isSuffixOf s = false)
    (h7 : ¬(("Array<").data.isPrefixOf s ∧ s.getLast? = some '>'))
    (h8 : ("Record<").data.isPrefixOf s = false)
    (h9 : isSub ((" | ").data) s = true) :
    convert_type env s opt =
      ("z.union([").data ++
        List.intercalate ((", ").data)
          ((pySplit '|' s).map (fun tp => convert_type env (pyStrip tp) false)) ++
        ("])").data ++ (if opt then (".optional()").data else []) := by
  rw [convert_type_unfold, normalize_ts_id s opt h1 h2 h3 h4]
  have hpipe : '|' ∈ s := mem_of_isSub _ _ '|' (by decide) h9
  have hz : convert_type_zod env (convert_typeF env s.length) s =
      ("z.union([").data ++
        List.intercalate ((", ").data)
          ((pySplit '|' s).map (fun tp => convert_type env (pyStrip tp) false)) ++
        ("])").data := by
    unfold convert_type_zod
    rw [h5]
    simp only
    rw [if_neg (by simp [h6]), if_neg h7, if_neg (by simp [h8]), if_pos h9]
    have hmap : (pySplit '|' s).map
        (fun tp => convert_typeF env s.length (pyStrip tp) false) =
        (pySplit '|' s).map (fun tp => convert_type env (pyStrip tp) false) := by
      refine List.map_congr_left ?_
      intro tp htp
      refine convert_typeF_eq env s.length (pyStrip tp) false ?_
      have := (pySplit_part_le '|' s tp htp).2 hpipe
      have := pyStrip_length_le tp
      omega
    rw [hmap]
  rw [hz]
  cases opt <;> simp

theorem claim_C2_witness :
    pyStrip (("A | B").data) = ("A | B").data ∧
    convert_type ⟨[], [], []⟩ (("A | B").data) false =
      ("z.union([").data ++
        List.intercalate ((", ").data)
          ((pySplit '|' (("A | B").data)).map
            (fun tp => convert_type ⟨[], [], []⟩ (pyStrip tp) false)) ++
        ("])").data ++ (if false then (".optional()").data else []) := by
  refine ⟨by decide, claim_C2_union_splits ⟨[], [], []⟩ (("A | B").data) false
    (by decide) (by decide) (by decide) (by decide) (by decide) (by decide)
    (by decide) (by decide) (by decide)⟩

/-- C4.  `T[]` and `Array<T>` produce the identical validator: an array
combinator wrapped around the conversion of `T`. -/
theorem claim_C4_array_forms_agree (env : ConvEnv) (T : List Char) (hp : '|' ∉ T)
    (hstripT : pyStrip T = T) :
    convert_type env (T ++ ("[]").data) false =
      ("z.array(").data ++ convert_type env T false ++ (")").data ∧
    convert_type env (("Array<").data ++ T ++ (">").data) false =
      ("z.array(").data ++ convert_type env T false ++ (")").data := by
  have hls : T.dropWhile isPySpace = T := by
    have h1 : (T.dropWhile isPySpace).length ≤ T.length := (List.dropWhile_sublist _).length_le
    have h2 : T.length ≤ (T.dropWhile isPySpace).length := by
      conv_lhs => rw [← hstripT]
      unfold pyStrip
      calc ((T.dropWhile isPySpace).reverse.dropWhile isPySpace).reverse.length
          = ((T.dropWhile isPySpace).reverse.dropWhile isPySpace).length :=
            List.length_reverse _
        _ ≤ (T.dropWhile isPySpace).reverse.length := (List.dropWhile_sublist _).length_le
        _ = (T.dropWhile isPySpace).length := List.length_reverse _
    exact ((List.dropWhile_sublist _).eq_of_length (le_antisymm h1 h2))
  constructor
  · -- the `T[]` form
    set s := T ++ ("[]").data with hs
    have hlast1 : s.getLast? = some ']' := by
      rw [hs, List.getLast?_append]; rfl
    have hstrip : pyStrip s = s := by
      rw [pyStrip_eq_lstrip s (fun c hc => by rw [hlast1] at hc; simp at hc; subst hc; decide)]
      rw [hs, dropWhile_append_of_head _ T _ (fun c hc => by simp at hc; subst hc; decide)]
      rw [hls]
    have hpipe1 : '|' ∉ s := by
      intro hm
      rw [hs] at hm
      rcases List.mem_append.mp hm with hm | hm
      · exact hp hm
      · simp at hm
    have hnorm : normalize_ts s false = (s, false) :=
      normalize_ts_id s false hstrip
        (by rw [hlast1]; simp)
        (isSub_false_of_missing _ _ '|' (by decide) hpipe1)
        (isSub_false_of_missing _ _ '|' (by decide) hpipe1)
    rw [convert_type_unfold, hnorm, if_neg (by simp)]
    unfold convert_type_zod
    rw [lookup_eq_none_of_ne _ _ (fun kv hkv => by
      fin_cases hkv <;> exact ne_of_getLast?_ne (by rw [hlast1]; decide))]
    simp only
    rw [if_pos (show ("[]").data.isSuffixOf s = true from
      List.isSuffixOf_iff_suffix.mpr (by rw [hs]; exact List.suffix_append _ _))]
    have hdrop2 : s.dropLast.dropLast = T := by
      rw [hs, show T ++ ("[]").data = (T ++ ['[']) ++ [']'] by simp]
      rw [List.dropLast_concat, List.dropLast_concat]
    rw [hdrop2, hstripT]
    rw [convert_typeF_eq env s.length T false (by
      rw [hs, List.length_append, show ((("[]").data).length = 2) from rfl]
      omega)]
  · -- the `Array<T>` form
    set s := ("Array<").data ++ T ++ (">").data with hs
    have hsplit : s = ("Array<").data ++ (T ++ (">").data) := by rw [hs, List.append_assoc]
    have hlast : s.getLast? = some '>' := by
      rw [hsplit, List.getLast?_append, List.getLast?_append]; rfl
    have hhead : s.head? = some 'A' := by rw [hsplit]; rfl
    have hpipe1 : '|' ∉ s := by
      intro hm
      rw [hsplit] at hm
      rcases List.mem_append.mp hm with hm | hm
      · simp at hm
      · rcases List.mem_append.mp hm with hm | hm
        · exact hp hm
        · simp at hm
    have hstrip : pyStrip s = s := by
      refine pyStrip_eq_self_of_ends s ?_ ?_
      · intro c hc; rw [hhead] at hc; simp at hc; subst hc; decide
      · intro c hc; rw [hlast] at hc; simp at hc; subst hc; decide
    have hnorm : normalize_ts s false = (s, false) :=
      normalize_ts_id s false hstrip
        (by rw [hlast]; simp)
        (isSub_false_of_missing _ _ '|' (by decide) hpipe1)
        (isSub_false_of_missing _ _ '|' (by decide) hpipe1)
    rw [convert_type_unfold, hnorm, if_neg (by simp)]
    unfold convert_type_zod
    rw [lookup_eq_none_of_ne _ _ (fun kv hkv => by
      fin_cases hkv <;> exact ne_of_head?_ne (by rw [hhead]; decide))]
    simp only
    rw [if_neg (by
      intro hb
      rw [suffix_brackets_getLast hb] at hlast
      simp at hlast)]
    rw [if_pos ⟨by
      rw [hsplit]
      exact List.isPrefixOf_iff_prefix.mpr (List.prefix_append _ _), hlast⟩]
    have hdrop : (s.drop 6).dropLast = T := by
      rw [hsplit, show (6 : Nat) = (("Array<").data).length from rfl, List.drop_left]
      exact List.dropLast_concat
    rw [hdrop, hstripT]
    rw [convert_typeF_eq env s.length T false (by
      rw [hs, List.length_append, List.length_append,
        show ((("Array<").data).length = 6) from rfl,
        show (((">").data).length = 1) from rfl]
      omega)]

theorem claim_C4_witness :
    ('|' ∉ (("number").data)) ∧
    convert_type ⟨[], [], []⟩ ((("number").data) ++ ("[]").data) false =
      ("z.array(").data ++ convert_type ⟨[], [], []⟩ (("number").data) false ++
        (")").data :=
  ⟨by decide, (claim_C4_array_forms_agree ⟨[], [], []⟩ (("number").data) (by decide)
    (by decide)).1⟩

/-- The lazy-group scan: a captured lazy plus followed by a continuation.
If the continuation fails at every proper split of `K` and first succeeds
right after `K`, the whole match captures exactly `K`. -/
theorem run_lazyGrp_seq (p : Char → Bool) (g : Nat) (cont : RE) (K rest : List Char)
    (prev : Option Char) (fu : Nat) (hfu : (K ++ rest).length + 3 < fu)
    (hK : K ≠ []) (hKp : ∀ c ∈ K, p c = true)
    (hfail : ∀ j, 1 ≤ j → j < K.length →
      run (fu - 1) cont (prevAt j prev (K ++ rest)) ((K ++ rest).drop j) = [])
    (y : Option Char × List Char × Caps) (tl0 : List (Option Char × List Char × Caps))
    (hok : run (fu - 1) cont (prevAt K.length prev (K ++ rest)) rest = y :: tl0) :
    ∃ tl, run fu (.seq (.grp g (lazyPlus (.cls p))) cont) prev (K ++ rest) =
      (y.1, y.2.1, y.2.2 ++ [(g, K)]) :: tl := by
  obtain ⟨f, rfl⟩ : ∃ f, fu = f + 1 := ⟨fu - 1, by omega⟩
  obtain ⟨f2, rfl⟩ : ∃ f2, f = f2 + 1 := ⟨f - 1, by omega⟩
  simp only [Nat.add_sub_cancel] at hfail hok
  rw [run_seq_eq, run_grp_eq]
  rw [run_lazyPlus_cls p (K ++ rest) f2 prev (by
    simp only [List.length_append] at hfu ⊢
    omega)]
  rw [List.map_map, List.flatMap_map]
  have hN : K.length ≤ ((K ++ rest).takeWhile p).length := by
    rw [takeWhile_append_all p K rest hKp]
    simp
  have hKpos : 1 ≤ K.length := by
    cases K with
    | nil => exact absurd rfl hK
    | cons c tK => simp
  have hcap : (K ++ rest).take ((K ++ rest).length - rest.length) = K := by
    rw [show (K ++ rest).length - rest.length = K.length by simp [List.length_append],
      List.take_left]
  refine flatMap_range_first (K.length - 1) _ _
    (y.1, y.2.1, y.2.2 ++ [(g, K)])
    (tl0.map (fun qr => (qr.1, qr.2.1, qr.2.2 ++ [(g, K)])))
    (by omega) ?_ ?_
  · intro j hj
    simp only [Function.comp]
    rw [hfail (j + 1) (by omega) (by omega)]
    rfl
  · simp only [Function.comp]
    rw [show K.length - 1 + 1 = K.length by omega]
    rw [List.drop_left, hcap, hok, List.map_cons]

theorem run_recordR2_fail (c : Char) (tl : List Char) (prev : Option Char) (fu : Nat)
    (hws : isPySpace c = false) (hc : c ≠ ',') (hfu : (c :: tl).length + 3 < fu) :
    run fu recordR2 prev (c :: tl) = [] := by
  obtain ⟨f, rfl⟩ : ∃ f, fu = f + 1 := ⟨fu - 1, by omega⟩
  rw [show recordR2 = .seq wsStar recordR3 from rfl, run_seq_eq]
  rw [run_wsStar_head (c :: tl) f prev
    (fun d hd => by simp at hd; subst hd; exact hws) (by simp at hfu ⊢; omega)]
  obtain ⟨f2, rfl⟩ : ∃ f2, f = f2 + 1 := ⟨f - 1, by omega⟩
  rw [List.flatMap_cons, List.flatMap_nil, List.append_nil]
  rw [show recordR3 = .seq (.lit ',') recordR4 from rfl, run_seq_eq]
  obtain ⟨f3, rfl⟩ : ∃ f3, f2 = f3 + 1 := ⟨f2 - 1, by omega⟩
  rw [run_lit_cons, if_neg hc]
  rfl

theorem run_recordR6_fail (c : Char) (tl : List Char) (prev : Option Char) (fu : Nat)
    (hws : isPySpace c = false) (hc : c ≠ '>') (hfu : (c :: tl).length + 3 < fu) :
    run fu recordR6 prev (c :: tl) = [] := by
  obtain ⟨f, rfl⟩ : ∃ f, fu = f + 1 := ⟨fu - 1, by omega⟩
  rw [show recordR6 = .seq wsStar (.lit '>') from rfl, run_seq_eq]
  rw [run_wsStar_head (c :: tl) f prev
    (fun d hd => by simp at hd; subst hd; exact hws) (by simp at hfu ⊢; omega)]
  obtain ⟨f2, rfl⟩ : ∃ f2, f = f2 + 1 := ⟨f - 1, by omega⟩
  rw [List.flatMap_cons, List.flatMap_nil, List.append_nil]
  rw [run_lit_cons, if_neg hc]
  rfl

theorem run_recordR6_ok (prev : Option Char) (fu : Nat) (hfu : 3 < fu) :
    run fu recordR6 prev ['>'] = [(some '>', [], [])] := by
  obtain ⟨f, rfl⟩ : ∃ f, fu = f + 1 := ⟨fu - 1, by omega⟩
  rw [show recordR6 = .seq wsStar (.lit '>') from rfl, run_seq_eq]
  rw [run_wsStar_head ['>'] f prev (fun d hd => by simp at hd; subst hd; decide)
    (by simp; omega)]
  obtain ⟨f2, rfl⟩ : ∃ f2, f = f2 + 1 := ⟨f - 1, by omega⟩
  rw [List.flatMap_cons, List.flatMap_nil, List.append_nil]
  rw [run_lit_cons, if_pos rfl]
  rfl

theorem run_recordR5_V (V : List Char) (prev : Option Char) (fu : Nat)
    (hV : V ≠ []) (hVc : ∀ c ∈ V, isPySpace c = false ∧ c ≠ '>')
    (hfu : V.length + 10 < fu) :
    ∃ tl, run fu recordR5 prev (V ++ ['>']) = (some '>', [], [(2, V)]) :: tl := by
  have h := run_lazyGrp_seq (fun c => c != '\n') 2 recordR6 V ['>'] prev fu
    (by simp at hfu ⊢; omega) hV
    (fun c hc => by
      have hws := (hVc c hc).1
      by_contra hne
      simp at hne
      subst hne
      exact absurd hws (by decide))
    (fun j hj1 hj2 => by
      have hd : (V ++ ['>']).drop j = V.drop j ++ ['>'] :=
        List.drop_append_of_le_length (by omega)
      rcases he : V.drop j with _ | ⟨c, tl'⟩
      · have : (V.drop j).length = V.length - j := List.length_drop _ _
        rw [he] at this
        simp at this
        omega
      · have hcV : c ∈ V := (List.drop_suffix j V).sublist.subset (by rw [he]; simp)
        rw [hd, he, List.cons_append]
        exact run_recordR6_fail c (tl' ++ ['>']) _ _ (hVc c hcV).1 (hVc c hcV).2
          (by
            have : j ≤ V.length := by omega
            simp at hfu ⊢
            have := (List.length_drop j V)
            rw [he] at this
            simp at this
            omega))
    (some '>', [], []) []
    (run_recordR6_ok _ _ (by omega))
  simpa using h

theorem run_recordR2_sep (V : List Char) (prev : Option Char) (fu : Nat)
    (hV : V ≠ []) (hVc : ∀ c ∈ V, isPySpace c = false ∧ c ≠ '>')
    (hfu : V.length + 16 < fu) :
    ∃ tl, run fu recordR2 prev (',' :: ' ' :: (V ++ ['>'])) =
      (some '>', [], [(2, V)]) :: tl := by
  obtain ⟨f, rfl⟩ : ∃ f, fu = f + 1 := ⟨fu - 1, by omega⟩
  rw [show recordR2 = .seq wsStar recordR3 from rfl, run_seq_eq]
  rw [run_wsStar_head _ f prev (fun d hd => by simp at hd; subst hd; decide)
    (by simp; omega)]
  rw [List.flatMap_cons, List.flatMap_nil, List.append_nil]
  obtain ⟨f2, rfl⟩ : ∃ f2, f = f2 + 1 := ⟨f - 1, by omega⟩
  rw [show recordR3 = .seq (.lit ',') recordR4 from rfl, run_seq_eq]
  dsimp only
  obtain ⟨f3, rfl⟩ : ∃ f3, f2 = f3 + 1 := ⟨f2 - 1, by omega⟩
  rw [run_lit_cons, if_pos rfl, List.flatMap_cons, List.flatMap_nil, List.append_nil]
  dsimp only
  rw [show recordR4 = .seq wsStar recordR5 from rfl, run_seq_eq]
  rw [run_wsStar_one ' ' (V ++ ['>']) f3 (some ',') (by decide)
    (fun d hd => by
      cases V with
      | nil => exact absurd rfl hV
      | cons v vs =>
        simp at hd
        subst hd
        exact (hVc v (List.mem_cons_self _ _)).1)
    (by simp only [List.length_append, List.length_cons, List.length_nil]; omega)]
  rw [List.flatMap_cons]
  obtain ⟨tl5, htl5⟩ := run_recordR5_V V (some ' ') f3 hV hVc (by omega)
  rw [htl5, List.map_cons, List.cons_append, List.map_cons, List.cons_append]
  exact ⟨_, rfl⟩

/-- The `Record<K, V>` match: group 1 captures `K`, group 2 captures `V`. -/
theorem reMatch_record (K V : List Char)
    (hK : K ≠ []) (hKc : ∀ c ∈ K, isPySpace c = false ∧ c ≠ ',')
    (hV : V ≠ []) (hVc : ∀ c ∈ V, isPySpace c = false ∧ c ≠ '>') :
    reMatch recordPat
      (("Record<").data ++ K ++ (", ").data ++ V ++ (">").data) =
      some (some '>', [], [(2, V), (1, K)]) := by
  have hshape : ("Record<").data ++ K ++ (", ").data ++ V ++ (">").data =
      ("Record<").data ++ (K ++ (',' :: ' ' :: (V ++ ['>']))) := by
    simp [List.append_assoc]
  rw [hshape, reMatch]
  have hfuel : fuelFor recordPat (("Record<").data ++ (K ++ (',' :: ' ' :: (V ++ ['>'])))) =
      43 * ((("Record<").data ++ (K ++ (',' :: ' ' :: (V ++ ['>'])))).length + 1) + 1 := rfl
  rw [hfuel]
  set L : Nat := (("Record<").data ++ (K ++ (',' :: ' ' :: (V ++ ['>'])))).length with hL
  have hLlen : L = K.length + V.length + 10 := by
    rw [hL]
    simp [List.length_append]
    omega
  rw [show recordPat = .seq (lits (("Record<").data)) recordTail from rfl, run_seq_eq]
  rw [run_lits (("Record<").data) _ none _ (by
    rw [show ((("Record<").data).length = 7) from rfl]
    omega)]
  rw [if_pos (List.isPrefixOf_iff_prefix.mpr (List.prefix_append _ _))]
  rw [List.flatMap_cons, List.flatMap_nil, List.append_nil]
  rw [show ((("Record<").data).length = 7) from rfl,
    show prevAfter (("Record<").data) none = some '<' from rfl]
  rw [show List.drop 7 ((("Record<").data) ++ (K ++ (',' :: ' ' :: (V ++ ['>'])))) =
    K ++ (',' :: ' ' :: (V ++ ['>'])) from by
      rw [show (7 : Nat) = ((("Record<").data)).length from rfl]
      exact List.drop_left _ _]
  rw [show recordTail = .seq wsStar (.seq (.grp 1 (lazyPlus dotNL)) recordR2) from rfl]
  obtain ⟨f, hf⟩ : ∃ f, 43 * (L + 1) = f + 1 := ⟨43 * (L + 1) - 1, by omega⟩
  rw [hf, run_seq_eq]
  rw [run_wsStar_head _ f (some '<') (fun d hd => by
    cases K with
    | nil => exact absurd rfl hK
    | cons k ks =>
      simp at hd
      subst hd
      exact (hKc k (List.mem_cons_self _ _)).1)
    (by
      simp only [List.length_append, List.length_cons, List.length_nil]
      omega)]
  rw [List.flatMap_cons, List.flatMap_nil, List.append_nil]
  rw [show RE.seq (RE.grp 1 (lazyPlus dotNL)) recordR2 =
    RE.seq (RE.grp 1 (lazyPlus (RE.cls (fun c => c != '\n')))) recordR2 from rfl]
  obtain ⟨tl2, htl2⟩ := run_lazyGrp_seq (fun c => c != '\n') 1 recordR2 K
    (',' :: ' ' :: (V ++ ['>'])) (some '<') f
    (by simp only [List.length_append, List.length_cons, List.length_nil]; omega) hK
    (fun c hc => by
      have hws := (hKc c hc).1
      by_contra hne
      simp at hne
      subst hne
      exact absurd hws (by decide))
    (fun j hj1 hj2 => by
      have hd : (K ++ (',' :: ' ' :: (V ++ ['>']))).drop j =
          K.drop j ++ (',' :: ' ' :: (V ++ ['>'])) :=
        List.drop_append_of_le_length (by omega)
      rcases he : K.drop j with _ | ⟨c, tl'⟩
      · have : (K.drop j).length = K.length - j := List.length_drop _ _
        rw [he] at this
        simp at this
        omega
      · have hcK : c ∈ K := (List.drop_suffix j K).sublist.subset (by rw [he]; simp)
        rw [hd, he, List.cons_append]
        exact run_recordR2_fail c _ _ _ (hKc c hcK).1 (hKc c hcK).2
          (by
            have h1 := List.length_drop j K
            rw [he] at h1
            simp only [List.length_append, List.length_cons, List.length_nil] at h1 ⊢
            omega))
    (some '>', [], [(2, V)])
    (Classical.choose (run_recordR2_sep V (prevAt K.length (some '<')
      (K ++ (',' :: ' ' :: (V ++ ['>'])))) (f - 1) hV hVc
      (by omega)))
    (Classical.choose_spec (run_recordR2_sep V (prevAt K.length (some '<')
      (K ++ (',' :: ' ' :: (V ++ ['>'])))) (f - 1) hV hVc
      (by omega)))
  dsimp only
  rw [htl2]
  simp

set_option maxHeartbeats 1000000 in
/-- C5.  `Record<K, V>` emits `z.record(convert(V))`: the key type is never
validated and the result is independent of the key text; a malformed
argument list (`Record<>`) degrades to `z.record(z.any())`. -/
theorem claim_C5_record_value_only :
    (∀ (env : ConvEnv) (K V : List Char),
      K ≠ [] → (∀ c ∈ K, isPySpace c = false ∧ c ≠ ',') →
      V ≠ [] → (∀ c ∈ V, isPySpace c = false ∧ c ≠ '>') →
      convert_type env (("Record<").data ++ K ++ (", ").data ++ V ++ (">").data) false =
        ("z.record(").data ++ convert_type env V false ++ (")").data) ∧
    convert_type ⟨[], [], []⟩ (("Record<>").data) false = ("z.record(z.any())").data := by
  constructor
  · intro env K V hK hKc hV hVc
    set s := ("Record<").data ++ K ++ (", ").data ++ V ++ (">").data with hs
    have hshape : s = ("Record<").data ++ (K ++ (',' :: ' ' :: (V ++ ['>']))) := by
      rw [hs]
      simp [List.append_assoc]
    have hslen : s.length = K.length + V.length + 10 := by
      rw [hshape]
      simp [List.length_append]
      omega
    have hhead : s.head? = some 'R' := by rw [hshape]; rfl
    have hlast : s.getLast? = some '>' := by
      rw [hs, List.getLast?_append]; rfl
    have hKsp : ' ' ∉ K := fun hm => by
      have := (hKc ' ' hm).1
      exact absurd this (by decide)
    have hVsp : ' ' ∉ V := fun hm => by
      have := (hVc ' ' hm).1
      exact absurd this (by decide)
    have hcount : s.count ' ' = 1 := by
      rw [hs]
      simp only [List.count_append]
      rw [count_eq_zero_of_not_mem hKsp, count_eq_zero_of_not_mem hVsp]
      rfl
    have hsub1 : isSub ((" | undefined").data) s = false := by
      cases hb : isSub ((" | undefined").data) s
      · rfl
      · have := isSub_count_le _ _ ' ' hb
        rw [hcount] at this
        exact absurd this (by decide)
    have hsub2 : isSub ((" | null").data) s = false := by
      cases hb : isSub ((" | null").data) s
      · rfl
      · have := isSub_count_le _ _ ' ' hb
        rw [hcount] at this
        exact absurd this (by decide)
    have hstrip : pyStrip s = s := by
      refine pyStrip_eq_self_of_ends s ?_ ?_
      · intro c hc; rw [hhead] at hc; simp at hc; subst hc; decide
      · intro c hc; rw [hlast] at hc; simp at hc; subst hc; decide
    have hnorm : normalize_ts s false = (s, false) :=
      normalize_ts_id s false hstrip (by rw [hlast]; simp) hsub1 hsub2
    have hrm : reMatch recordPat s = some (some '>', [], [(2, V), (1, K)]) := by
      rw [hs]
      exact reMatch_record K V hK hKc hV hVc
    rw [convert_type_unfold, hnorm, if_neg (by simp)]
    unfold convert_type_zod
    rw [lookup_eq_none_of_ne _ _ (fun kv hkv => by
      fin_cases hkv <;> exact ne_of_head?_ne (by rw [hhead]; decide)), hrm]
    simp only
    rw [if_neg (by
      intro hb
      rw [suffix_brackets_getLast hb] at hlast
      simp at hlast)]
    rw [if_neg (by
      rintro ⟨hpre, _⟩
      obtain ⟨w, hw⟩ := List.isPrefixOf_iff_prefix.mp hpre
      rw [← hw] at hhead
      simp at hhead)]
    rw [if_pos (show ("Record<").data.isPrefixOf s = true from by
      rw [hshape]
      exact List.isPrefixOf_iff_prefix.mpr (List.prefix_append _ _))]
    rw [show (capGet [(2, V), (1, K)] 2).getD [] = V from rfl]
    rw [convert_typeF_eq env s.length V false (by omega)]
  · decide

theorem claim_C5_witness :
    (("string").data ≠ ([] : List Char)) ∧
    convert_type ⟨[], [], []⟩
      (("Record<").data ++ ("string").data ++ (", ").data ++ ("Number").data ++
        (">").data) false =
      ("z.record(").data ++ convert_type ⟨[], [], []⟩ (("Number").data) false ++
        (")").data :=
  ⟨by decide, claim_C5_record_value_only.1 ⟨[], [], []⟩ (("string").data)
    (("Number").data) (by decide) (by decide) (by decide) (by decide)⟩

/-! ### Alias pattern walk (C9) -/

/-- If the input still ends in a semicolon, the trailing `\s*$` of the alias
pattern cannot match. -/
theorem run_wsStar_eolSL_fail (s : List Char) (prev : Option Char) (fu : Nat)
    (hlast : s.getLast? = some ';') (hfu : s.length + 2 < fu) :
    run fu aliasA8 prev s = [] := by
  obtain ⟨f, rfl⟩ : ∃ f, fu = f + 1 := ⟨fu - 1, by omega⟩
  rw [show aliasA8 = .seq wsStar .eolSL from rfl, run_seq_eq]
  rw [show wsStar = RE.starG (RE.cls isPySpace) from rfl,
    run_starG_cls isPySpace s f prev (by omega)]
  have hk : (s.takeWhile isPySpace).length < s.length := by
    by_contra hnk
    push_neg at hnk
    have heq : s.takeWhile isPySpace = s :=
      List.IsPrefix.eq_of_length (List.takeWhile_prefix _)
        (le_antisymm (List.takeWhile_prefix _).length_le hnk)
    have hmem : ';' ∈ s := List.mem_of_mem_getLast? hlast
    have hws : isPySpace ';' = true := List.mem_takeWhile_imp (heq ▸ hmem)
    exact absurd hws (by decide)
  refine List.flatMap_eq_nil_iff.mpr ?_
  intro x hx
  simp only [List.mem_map, List.mem_reverse, List.mem_range] at hx
  obtain ⟨i, hi, rfl⟩ := hx
  dsimp only
  obtain ⟨f2, rfl⟩ : ∃ f2, f = f2 + 1 := ⟨f - 1, by omega⟩
  have hne1 : s.drop i ≠ [] := by
    intro heq
    have hl := congrArg List.length heq
    simp only [List.length_drop, List.length_nil] at hl
    omega
  have hne2 : s.drop i ≠ ['\n'] := by
    intro heq
    have hg := getLast?_of_suffix (List.drop_suffix i s) hne1
    rw [hlast, heq] at hg
    exact absurd hg (by decide)
  rw [run_eolSL_eq, if_neg (by push_neg; exact ⟨hne1, hne2⟩), List.map_nil]

/-- The alias tail `;?\s*$` fails on a string that starts with a
non-semicolon and still ends in a semicolon. -/
theorem run_aliasA7_fail (c : Char) (t : List Char) (prev : Option Char) (fu : Nat)
    (hc : c ≠ ';') (hlast : (c :: t).getLast? = some ';')
    (hfu : (c :: t).length + 5 < fu) :
    run fu aliasA7 prev (c :: t) = [] := by
  obtain ⟨f, rfl⟩ : ∃ f, fu = f + 1 := ⟨fu - 1, by omega⟩
  rw [show aliasA7 = .seq (ropt (.lit ';')) aliasA8 from rfl, run_seq_eq]
  obtain ⟨f2, rfl⟩ : ∃ f2, f = f2 + 1 := ⟨f - 1, by omega⟩
  rw [run_ropt_eq f2 (.lit ';') prev (c :: t) (by omega)]
  obtain ⟨f3, rfl⟩ : ∃ f3, f2 = f3 + 1 := ⟨f2 - 1, by omega⟩
  rw [run_lit_cons, if_neg hc, List.nil_append, List.flatMap_cons, List.flatMap_nil,
    List.append_nil]
  dsimp only
  rw [run_wsStar_eolSL_fail (c :: t) prev (f3 + 1 + 1) hlast
    (by simp only [List.length_cons] at hfu ⊢; omega)]
  rfl

/-- The alias tail `;?\s*$` matches exactly once on a lone semicolon. -/
theorem run_aliasA7_ok (prev : Option Char) (fu : Nat) (hfu : 5 < fu) :
    run fu aliasA7 prev [';'] = [(some ';', [], [])] := by
  obtain ⟨f, rfl⟩ : ∃ f, fu = f + 1 := ⟨fu - 1, by omega⟩
  rw [show aliasA7 = .seq (ropt (.lit ';')) aliasA8 from rfl, run_seq_eq]
  obtain ⟨f2, rfl⟩ : ∃ f2, f = f2 + 1 := ⟨f - 1, by omega⟩
  rw [run_ropt_eq f2 (.lit ';') prev [';'] (by omega)]
  obtain ⟨f3, rfl⟩ : ∃ f3, f2 = f3 + 1 := ⟨f2 - 1, by omega⟩
  rw [run_lit_cons, if_pos rfl, List.singleton_append, List.flatMap_cons,
    List.flatMap_cons, List.flatMap_nil, List.append_nil]
  dsimp only
  rw [run_wsStar_eolSL_fail [';'] prev (f3 + 1 + 1) (by decide)
    (by simp only [List.length_cons, List.length_nil]; omega),
    List.map_nil, List.append_nil]
  rw [show aliasA8 = .seq wsStar .eolSL from rfl, run_seq_eq]
  rw [run_wsStar_head [] (f3 + 1) (some ';') (fun d hd => by simp at hd)
    (by simp only [List.length_nil]; omega)]
  rw [List.flatMap_cons, List.flatMap_nil, List.append_nil]
  dsimp only
  obtain ⟨f4, rfl⟩ : ∃ f4, f3 = f4 + 1 := ⟨f3 - 1, by omega⟩
  rw [run_eolSL_eq, if_pos (Or.inl rfl)]
  rfl

/-- `\s+` consumes exactly one space when the next character is not
whitespace. -/
theorem run_wsPlus_one (u : List Char) (prev : Option Char) (fu : Nat)
    (hu : ∀ c, u.head? = some c → isPySpace c = false) (hfu : u.length + 3 < fu) :
    run fu wsPlus prev (' ' :: u) = [(some ' ', u, [])] := by
  obtain ⟨f, rfl⟩ : ∃ f, fu = f + 1 := ⟨fu - 1, by omega⟩
  rw [show wsPlus = .seq clsWs wsStar from rfl, run_seq_eq]
  obtain ⟨f2, rfl⟩ : ∃ f2, f = f2 + 1 := ⟨f - 1, by omega⟩
  rw [show clsWs = RE.cls isPySpace from rfl, run_cls_cons, if_pos (by decide)]
  rw [List.flatMap_cons, List.flatMap_nil, List.append_nil]
  dsimp only
  rw [run_wsStar_head u (f2 + 1) (some ' ') hu (by omega)]
  rfl

/-- The first (greedy) result of `(\w+)` on `N ++ rest` captures all of
`N` when `rest` does not start with a word character. -/
theorem run_grpWord_head (g : Nat) (N rest : List Char) (prev : Option Char) (fu : Nat)
    (hN : N ≠ []) (hw : ∀ c ∈ N, isWordChar c = true)
    (hrest : ∀ c, rest.head? = some c → isWordChar c = false)
    (hfu : (N ++ rest).length + 2 < fu) :
    ∃ tl, run fu (.grp g wordPlusG) prev (N ++ rest) =
      (prevAt N.length prev (N ++ rest), rest, [(g, N)]) :: tl := by
  obtain ⟨f, rfl⟩ : ∃ f, fu = f + 1 := ⟨fu - 1, by omega⟩
  rw [run_grp_eq]
  rw [show wordPlusG = RE.seq (RE.cls isWordChar) (RE.starG (RE.cls isWordChar)) from rfl]
  rw [run_plusG_cls isWordChar (N ++ rest) f prev (by omega)]
  have htw : ((N ++ rest).takeWhile isWordChar).length = N.length := by
    rw [takeWhile_append_all isWordChar N rest hw]
    have hres : rest.takeWhile isWordChar = [] := by
      cases rest with
      | nil => rfl
      | cons d td => simp [List.takeWhile_cons, hrest d rfl]
    rw [hres]
    simp
  rw [htw]
  obtain ⟨m, hm⟩ : ∃ m, N.length = m + 1 := by
    cases N with
    | nil => exact absurd rfl hN
    | cons n ns => exact ⟨ns.length, by simp⟩
  rw [hm, List.range_succ, List.reverse_append, List.reverse_cons, List.reverse_nil,
    List.nil_append, List.singleton_append, List.map_cons, List.map_cons]
  dsimp only
  rw [← hm, List.drop_left]
  rw [show (N ++ rest).length - rest.length = N.length from by
    simp [List.length_append]]
  rw [List.take_left]
  exact ⟨_, rfl⟩

/-- The backtracking-first match of the whole alias pattern on
`type N = R;` has group 1 = `N` and group 2 = `R`. -/
theorem run_aliasPat_head (N R : List Char) (prev : Option Char) (fu : Nat)
    (hN : N ≠ []) (hNw : ∀ c ∈ N, isWordChar c = true)
    (hR : R ≠ []) (hRs : ';' ∉ R)
    (hRh : ∀ c, R.head? = some c → isPySpace c = false)
    (hfu : N.length + R.length + 40 < fu) :
    ∃ tl, run fu aliasPat prev
        (("type").data ++ (' ' :: (N ++ (' ' :: '=' :: ' ' :: (R ++ [';']))))) =
      (some ';', [], [(2, R), (1, N)]) :: tl := by
  obtain ⟨f1, rfl⟩ : ∃ f1, fu = f1 + 1 := ⟨fu - 1, by omega⟩
  obtain ⟨f2, rfl⟩ : ∃ f2, f1 = f2 + 1 := ⟨f1 - 1, by omega⟩
  obtain ⟨f3, rfl⟩ : ∃ f3, f2 = f3 + 1 := ⟨f2 - 1, by omega⟩
  obtain ⟨f4, rfl⟩ : ∃ f4, f3 = f4 + 1 := ⟨f3 - 1, by omega⟩
  obtain ⟨f5, rfl⟩ : ∃ f5, f4 = f5 + 1 := ⟨f4 - 1, by omega⟩
  obtain ⟨f6, rfl⟩ : ∃ f6, f5 = f6 + 1 := ⟨f5 - 1, by omega⟩
  have h7 := run_lazyGrp_seq (fun _ => true) 2 aliasA7 R [';'] (some ' ') f6
    (by simp only [List.length_append, List.length_cons, List.length_nil] at hfu ⊢; omega)
    hR (fun c _ => rfl)
    (fun j hj1 hj2 => by
      have hd : (R ++ [';']).drop j = R.drop j ++ [';'] :=
        List.drop_append_of_le_length (by omega)
      rcases he : R.drop j with _ | ⟨c, tl'⟩
      · have hld := List.length_drop j R
        rw [he] at hld
        simp at hld
        omega
      · have hcR : c ∈ R := (List.drop_suffix j R).sublist.subset (by rw [he]; simp)
        have hld := List.length_drop j R
        rw [he] at hld
        rw [hd, he, List.cons_append]
        refine run_aliasA7_fail c (tl' ++ [';']) _ _ (fun hcs => hRs (hcs ▸ hcR)) ?_ ?_
        · exact (getLast?_of_suffix (List.suffix_append (c :: tl') [';'])
            (by decide)).trans rfl
        · simp only [List.length_cons, List.length_append, List.length_nil] at hld ⊢
          omega)
    (some ';', [], []) []
    (run_aliasA7_ok (prevAt R.length (some ' ') (R ++ [';'])) (f6 - 1) (by omega))
  have h6 : ∃ tl, run f6 aliasA6 (some ' ') (R ++ [';']) =
      (some ';', [], [(2, R)]) :: tl := by
    obtain ⟨tl, h⟩ := h7
    exact ⟨tl, h⟩
  have hx6 : ∃ tl, run f6 wsStar (some '=') (' ' :: (R ++ [';'])) =
      (some ' ', R ++ [';'], ([] : Caps)) :: tl :=
    ⟨[(some '=', ' ' :: (R ++ [';']), [])],
      run_wsStar_one ' ' (R ++ [';']) f6 (some '=') (by decide)
        (fun d hd => by
          cases R with
          | nil => exact absurd rfl hR
          | cons r rs =>
            simp at hd
            subst hd
            exact hRh r rfl)
        (by simp only [List.length_append, List.length_cons, List.length_nil]
              at hfu ⊢
            omega)⟩
  have h5 : ∃ tl, run (f6 + 1) aliasA5 (some '=') (' ' :: (R ++ [';'])) =
      (some ';', [], [(2, R)]) :: tl := by
    obtain ⟨tl, h⟩ := firstRes_seq hx6 h6
    exact ⟨tl, h⟩
  have hx5 : ∃ tl, run (f6 + 1) (RE.lit '=') (some ' ')
      ('=' :: ' ' :: (R ++ [';'])) =
      (some '=', ' ' :: (R ++ [';']), ([] : Caps)) :: tl :=
    ⟨[], by rw [run_lit_cons, if_pos rfl]⟩
  have h4 : ∃ tl, run (f6 + 1 + 1) aliasA4 (some ' ')
      ('=' :: ' ' :: (R ++ [';'])) = (some ';', [], [(2, R)]) :: tl := by
    obtain ⟨tl, h⟩ := firstRes_seq hx5 h5
    exact ⟨tl, h⟩
  have hx4 : ∃ tl, run (f6 + 1 + 1) wsStar
      (prevAt N.length (some ' ') (N ++ (' ' :: '=' :: ' ' :: (R ++ [';']))))
      (' ' :: '=' :: ' ' :: (R ++ [';'])) =
      (some ' ', '=' :: ' ' :: (R ++ [';']), ([] : Caps)) :: tl :=
    ⟨[(prevAt N.length (some ' ') (N ++ (' ' :: '=' :: ' ' :: (R ++ [';']))),
        ' ' :: '=' :: ' ' :: (R ++ [';']), [])],
      run_wsStar_one ' ' ('=' :: ' ' :: (R ++ [';'])) (f6 + 1 + 1) _ (by decide)
        (fun d hd => by
          simp at hd
          subst hd
          decide)
        (by simp only [List.length_append, List.length_cons, List.length_nil]
              at hfu ⊢
            omega)⟩
  have h3 : ∃ tl, run (f6 + 1 + 1 + 1) aliasA3
      (prevAt N.length (some ' ') (N ++ (' ' :: '=' :: ' ' :: (R ++ [';']))))
      (' ' :: '=' :: ' ' :: (R ++ [';'])) = (some ';', [], [(2, R)]) :: tl := by
    obtain ⟨tl, h⟩ := firstRes_seq hx4 h4
    exact ⟨tl, h⟩
  have hx3 := run_grpWord_head 1 N (' ' :: '=' :: ' ' :: (R ++ [';'])) (some ' ')
    (f6 + 1 + 1 + 1) hN hNw
    (fun c hc => by
      simp at hc
      subst hc
      decide)
    (by simp only [List.length_append, List.length_cons, List.length_nil] at hfu ⊢
        omega)
  have h2 : ∃ tl, run (f6 + 1 + 1 + 1 + 1) aliasA2 (some ' ')
      (N ++ (' ' :: '=' :: ' ' :: (R ++ [';']))) =
      (some ';', [], [(2, R), (1, N)]) :: tl := by
    obtain ⟨tl, h⟩ := firstRes_seq hx3 h3
    exact ⟨tl, h⟩
  have hx2 : ∃ tl, run (f6 + 1 + 1 + 1 + 1) wsPlus (some 'e')
      (' ' :: (N ++ (' ' :: '=' :: ' ' :: (R ++ [';'])))) =
      (some ' ', N ++ (' ' :: '=' :: ' ' :: (R ++ [';'])), ([] : Caps)) :: tl :=
    ⟨[], by
      rw [run_wsPlus_one (N ++ (' ' :: '=' :: ' ' :: (R ++ [';']))) (some 'e')
        (f6 + 1 + 1 + 1 + 1)
        (fun d hd => by
          cases N with
          | nil => exact absurd rfl hN
          | cons n ns =>
            simp at hd
            subst hd
            exact not_space_of_word n (hNw n (List.mem_cons_self _ _)))
        (by simp only [List.length_append, List.length_cons, List.length_nil]
              at hfu ⊢
            omega)]⟩
  have h1 : ∃ tl, run (f6 + 1 + 1 + 1 + 1 + 1) aliasA1 (some 'e')
      (' ' :: (N ++ (' ' :: '=' :: ' ' :: (R ++ [';'])))) =
      (some ';', [], [(2, R), (1, N)]) :: tl := by
    obtain ⟨tl, h⟩ := firstRes_seq hx2 h2
    exact ⟨tl, h⟩
  have hx1 : ∃ tl, run (f6 + 1 + 1 + 1 + 1 + 1) (lits (("type").data)) prev
      (("type").data ++ (' ' :: (N ++ (' ' :: '=' :: ' ' :: (R ++ [';']))))) =
      (some 'e', ' ' :: (N ++ (' ' :: '=' :: ' ' :: (R ++ [';']))),
        ([] : Caps)) :: tl :=
    ⟨[], by
      rw [run_lits (("type").data) (f6 + 1 + 1 + 1 + 1 + 1) prev _
        (by rw [show ((("type").data).length = 4) from rfl]; omega),
        if_pos (List.isPrefixOf_iff_prefix.mpr (List.prefix_append _ _)),
        List.drop_left]
      rfl⟩
  obtain ⟨tl, h⟩ := firstRes_seq hx1 h1
  exact ⟨tl, h⟩

/-- `re.search` of the alias pattern on `type N = R;` captures `N` and `R`. -/
theorem reSearch_alias (N R : List Char)
    (hN : N ≠ []) (hNw : ∀ c ∈ N, isWordChar c = true)
    (hR : R ≠ []) (hRs : ';' ∉ R)
    (hRh : ∀ c, R.head? = some c → isPySpace c = false) :
    reSearch aliasPat (("type ").data ++ N ++ (" = ").data ++ R ++ ((";").data)) =
      some [(2, R), (1, N)] := by
  have hshape : ("type ").data ++ N ++ (" = ").data ++ R ++ ((";").data) =
      ("type").data ++ (' ' :: (N ++ (' ' :: '=' :: ' ' :: (R ++ [';'])))) := by
    rw [show ("type ").data = ("type").data ++ [' '] from by decide,
      show (" = ").data = [' ', '=', ' '] from by decide,
      show ((";").data) = [';'] from by decide]
    simp only [List.append_assoc, List.cons_append, List.nil_append,
      List.singleton_append]
  rw [hshape]
  unfold reSearch
  rw [searchGo_succ]
  obtain ⟨tl, hrun⟩ := run_aliasPat_head N R none
    (fuelFor aliasPat
      (("type").data ++ (' ' :: (N ++ (' ' :: '=' :: ' ' :: (R ++ [';']))))))
    hN hNw hR hRs hRh
    (by
      rw [show fuelFor aliasPat
          (("type").data ++ (' ' :: (N ++ (' ' :: '=' :: ' ' :: (R ++ [';']))))) =
          43 * ((("type").data ++
            (' ' :: (N ++ (' ' :: '=' :: ' ' :: (R ++ [';']))))).length + 1) + 1
        from rfl]
      simp only [List.length_append, List.length_cons, List.length_nil,
        show ((("type").data).length = 4) from rfl]
      omega)
  rw [hrun]
  rfl

/-- C9 counterexample.  The registry scan cuts an alias declaration at the
FIRST semicolon of the input, even when that semicolon sits inside nested
braces of the right-hand side: the captured body is truncated, not the full
right-hand side. -/
theorem claim_C9_counterexample :
    typesOf (("type X = \x7b a: s; b: n \x7d;").data) =
      [(("X").data, ("\x7b a: s").data)] ∧
    ("\x7b a: s").data ≠ ("\x7b a: s; b: n \x7d").data :=
  ⟨by decide, by decide⟩

/-- C9 (amended).  The alias terminator is the first semicolon (or end of
input): for every alias declaration `type N = R;` whose right-hand side `R`
contains no semicolon — nested angle brackets or braces included — the
parser captures the name `N` and the full right-hand side `R`; in
particular a right-hand side with nested angle brackets survives the whole
registry scan intact.  (A semicolon nested inside delimiters, however, IS
mistaken for the terminator.) -/
theorem claim_C9_alias_terminator :
    (∀ (N R : List Char), N ≠ [] → (∀ c ∈ N, isWordChar c = true) →
      R ≠ [] → ';' ∉ R →
      (∀ c, R.head? = some c → isPySpace c = false) →
      (∀ c, R.getLast? = some c → isPySpace c = false) →
      parse_type_alias (("type ").data ++ N ++ (" = ").data ++ R ++ ((";").data)) =
        some (N, R)) ∧
    typesOf (("type Y = A<B<c>>;").data) = [(("Y").data, ("A<B<c>>").data)] := by
  constructor
  · intro N R hN hNw hR hRs hRh hRl
    unfold parse_type_alias
    rw [reSearch_alias N R hN hNw hR hRs hRh]
    show some (N, stripSemis (pyStrip R)) = some (N, R)
    rw [pyStrip_eq_self_of_ends R hRh hRl,
      stripSemis_eq_self R (fun hgl => hRs (List.mem_of_mem_getLast? hgl))]
  · decide

theorem claim_C9_witness :
    ("X").data ≠ [] ∧
    parse_type_alias (("type ").data ++ ("X").data ++ (" = ").data ++
        ("A<b>").data ++ ((";").data)) =
      some (("X").data, ("A<b>").data) :=
  ⟨by decide,
   claim_C9_alias_terminator.1 (("X").data) (("A<b>").data) (by decide) (by decide)
     (by decide) (by decide)
     (fun c hc => by
       have hc2 : some 'A' = some c := hc
       injection hc2 with h2
       subst h2
       decide)
     (fun c hc => by
       have hc2 : some '>' = some c := hc
       injection hc2 with h2
       subst h2
       decide)⟩

/-! ### Sub pattern walk (C3) -/

theorem isPrefixOf_false_of_head (c d : Char) (w t : List Char) (h : c ≠ d) :
    (c :: w).isPrefixOf (d :: t) = false := by
  simp [List.isPrefixOf, h]

/-- A space-free pattern that is not a prefix of `B` is not a prefix of
`B` followed by a space either. -/
theorem not_prefix_append_space (w : List Char) : ∀ (B T : List Char), ' ' ∉ w →
    w.isPrefixOf B = false → w.isPrefixOf (B ++ ' ' :: T) = false := by
  induction w with
  | nil => intro B T _ hnB; simp [List.isPrefixOf] at hnB
  | cons c w ih =>
    intro B T hw hnB
    cases B with
    | nil =>
      simp only [List.nil_append]
      exact isPrefixOf_false_of_head c ' ' w T
        (fun he => hw (he ▸ List.mem_cons_self _ _))
    | cons b B2 =>
      simp only [List.cons_append, List.isPrefixOf_cons₂] at hnB ⊢
      by_cases hcb : c = b
      · subst hcb
        simp only [beq_self_eq_true, Bool.true_and] at hnB ⊢
        exact ih B2 T (fun hm => hw (List.mem_cons_of_mem _ hm)) hnB
      · simp [beq_eq_false_iff_ne.mpr hcb]

/-- A pattern containing a non-word character is no prefix of an all-word
string. -/
theorem isPrefixOf_word_false (w A : List Char) (hAw : ∀ c ∈ A, isWordChar c = true)
    (c : Char) (hc : c ∈ w) (hcw : isWordChar c = false) : w.isPrefixOf A = false := by
  cases hb : w.isPrefixOf A with
  | false => rfl
  | true =>
    have hm : c ∈ A := (List.isPrefixOf_iff_prefix.mp hb).sublist.subset hc
    exact absurd (hAw c hm) (by simp [hcw])

theorem run_subP4_fail (s : List Char) (prev : Option Char) (fu : Nat)
    (hu : ("undefined").data.isPrefixOf s = false)
    (hn : ("null").data.isPrefixOf s = false) (hfu : 12 < fu) :
    run fu subP4 prev s = [] := by
  obtain ⟨f, rfl⟩ : ∃ f, fu = f + 1 := ⟨fu - 1, by omega⟩
  rw [show subP4 = .grp 1 (.alt (lits ("undefined").data) (lits ("null").data)) from rfl,
    run_grp_eq]
  obtain ⟨f2, rfl⟩ : ∃ f2, f = f2 + 1 := ⟨f - 1, by omega⟩
  rw [run_alt_eq]
  rw [run_lits (("undefined").data) f2 prev s
      (by rw [show ((("undefined").data).length = 9) from rfl]; omega),
    run_lits (("null").data) f2 prev s
      (by rw [show ((("null").data).length = 4) from rfl]; omega)]
  rw [if_neg (show ¬ ((("undefined").data.isPrefixOf s) = true) from by simp [hu]),
    if_neg (show ¬ ((("null").data.isPrefixOf s) = true) from by simp [hn])]
  rfl

theorem run_subP4_undef (T : List Char) (prev : Option Char) (fu : Nat) (hfu : 12 < fu) :
    run fu subP4 prev (("undefined").data ++ T) =
      [(some 'd', T, [(1, ("undefined").data)])] := by
  obtain ⟨f, rfl⟩ : ∃ f, fu = f + 1 := ⟨fu - 1, by omega⟩
  rw [show subP4 = .grp 1 (.alt (lits ("undefined").data) (lits ("null").data)) from rfl,
    run_grp_eq]
  obtain ⟨f2, rfl⟩ : ∃ f2, f = f2 + 1 := ⟨f - 1, by omega⟩
  rw [run_alt_eq]
  rw [run_lits (("undefined").data) f2 prev _
      (by rw [show ((("undefined").data).length = 9) from rfl]; omega),
    run_lits (("null").data) f2 prev _
      (by rw [show ((("null").data).length = 4) from rfl]; omega)]
  rw [if_pos (List.isPrefixOf_iff_prefix.mpr (List.prefix_append _ _))]
  rw [if_neg (show ¬ ((("null").data.isPrefixOf ((("undefined").data) ++ T)) = true) from by
    rw [show ("null").data = 'n' :: ("ull").data from rfl,
      show ("undefined").data ++ T = 'u' :: (("ndefined").data ++ T) from rfl]
    simp [isPrefixOf_false_of_head 'n' 'u' _ _ (by decide)])]
  rw [List.append_nil, List.map_cons, List.map_nil]
  dsimp only
  rw [show prevAfter (("undefined").data) prev = some 'd' from rfl, List.drop_left]
  rw [show ((("undefined").data ++ T).length - T.length) = (("undefined").data).length from by
    simp only [List.length_append, show ((("undefined").data).length = 9) from rfl]
    omega]
  rw [List.take_left]

theorem run_subP4_null (T : List Char) (prev : Option Char) (fu : Nat) (hfu : 12 < fu) :
    run fu subP4 prev (("null").data ++ T) =
      [(some 'l', T, [(1, ("null").data)])] := by
  obtain ⟨f, rfl⟩ : ∃ f, fu = f + 1 := ⟨fu - 1, by omega⟩
  rw [show subP4 = .grp 1 (.alt (lits ("undefined").data) (lits ("null").data)) from rfl,
    run_grp_eq]
  obtain ⟨f2, rfl⟩ : ∃ f2, f = f2 + 1 := ⟨f - 1, by omega⟩
  rw [run_alt_eq]
  rw [run_lits (("undefined").data) f2 prev _
      (by rw [show ((("undefined").data).length = 9) from rfl]; omega),
    run_lits (("null").data) f2 prev _
      (by rw [show ((("null").data).length = 4) from rfl]; omega)]
  rw [if_neg (show ¬ ((("undefined").data.isPrefixOf ((("null").data) ++ T)) = true) from by
    rw [show ("undefined").data = 'u' :: ("ndefined").data from rfl,
      show ("null").data ++ T = 'n' :: (("ull").data ++ T) from rfl]
    simp [isPrefixOf_false_of_head 'u' 'n' _ _ (by decide)])]
  rw [if_pos (List.isPrefixOf_iff_prefix.mpr (List.prefix_append _ _))]
  rw [List.nil_append, List.map_cons, List.map_nil]
  dsimp only
  rw [show prevAfter (("null").data) prev = some 'l' from rfl, List.drop_left]
  rw [show ((("null").data ++ T).length - T.length) = (("null").data).length from by
    simp only [List.length_append, show ((("null").data).length = 4) from rfl]
    omega]
  rw [List.take_left]

theorem run_subP3_undef (T : List Char) (prev : Option Char) (fu : Nat)
    (hfu : T.length + 15 < fu) :
    ∃ tl, run fu subP3 prev (' ' :: (("undefined").data ++ T)) =
      (some 'd', T, [(1, ("undefined").data)]) :: tl := by
  obtain ⟨f, rfl⟩ : ∃ f, fu = f + 1 := ⟨fu - 1, by omega⟩
  have hx : ∃ tl, run f wsStar prev (' ' :: (("undefined").data ++ T)) =
      (some ' ', ("undefined").data ++ T, ([] : Caps)) :: tl :=
    ⟨[(prev, ' ' :: (("undefined").data ++ T), [])],
      run_wsStar_one ' ' (("undefined").data ++ T) f prev (by decide)
        (fun d hd => by
          rw [show ((("undefined").data ++ T).head? = some 'u') from rfl] at hd
          injection hd with h2
          subst h2
          decide)
        (by
          simp only [List.length_append, show ((("undefined").data).length = 9) from rfl]
          omega)⟩
  have hy : ∃ tl2, run f subP4 (some ' ') (("undefined").data ++ T) =
      (some 'd', T, [(1, ("undefined").data)]) :: tl2 :=
    ⟨[], by rw [run_subP4_undef T (some ' ') f (by omega)]⟩
  obtain ⟨tl, h⟩ := firstRes_seq hx hy
  exact ⟨tl, h⟩

theorem run_subP3_null (T : List Char) (prev : Option Char) (fu : Nat)
    (hfu : T.length + 15 < fu) :
    ∃ tl, run fu subP3 prev (' ' :: (("null").data ++ T)) =
      (some 'l', T, [(1, ("null").data)]) :: tl := by
  obtain ⟨f, rfl⟩ : ∃ f, fu = f + 1 := ⟨fu - 1, by omega⟩
  have hx : ∃ tl, run f wsStar prev (' ' :: (("null").data ++ T)) =
      (some ' ', ("null").data ++ T, ([] : Caps)) :: tl :=
    ⟨[(prev, ' ' :: (("null").data ++ T), [])],
      run_wsStar_one ' ' (("null").data ++ T) f prev (by decide)
        (fun d hd => by
          rw [show ((("null").data ++ T).head? = some 'n') from rfl] at hd
          injection hd with h2
          subst h2
          decide)
        (by
          simp only [List.length_append, show ((("null").data).length = 4) from rfl]
          omega)⟩
  have hy : ∃ tl2, run f subP4 (some ' ') (("null").data ++ T) =
      (some 'l', T, [(1, ("null").data)]) :: tl2 :=
    ⟨[], by rw [run_subP4_null T (some ' ') f (by omega)]⟩
  obtain ⟨tl, h⟩ := firstRes_seq hx hy
  exact ⟨tl, h⟩

theorem run_subPat_undef (T : List Char) (prev : Option Char) (fu : Nat)
    (hfu : T.length + 20 < fu) :
    ∃ tl, run fu subPat prev (' ' :: '|' :: ' ' :: (("undefined").data ++ T)) =
      (some 'd', T, [(1, ("undefined").data)]) :: tl := by
  obtain ⟨f1, rfl⟩ : ∃ f1, fu = f1 + 1 := ⟨fu - 1, by omega⟩
  obtain ⟨f2, rfl⟩ : ∃ f2, f1 = f2 + 1 := ⟨f1 - 1, by omega⟩
  obtain ⟨f3, rfl⟩ : ∃ f3, f2 = f3 + 1 := ⟨f2 - 1, by omega⟩
  have h3 : ∃ tl, run (f3 + 1) subP3 (some '|') (' ' :: (("undefined").data ++ T)) =
      (some 'd', T, [(1, ("undefined").data)]) :: tl :=
    run_subP3_undef T (some '|') (f3 + 1) (by omega)
  have hxl : ∃ tl, run (f3 + 1) (RE.lit '|') (some ' ')
      ('|' :: ' ' :: (("undefined").data ++ T)) =
      (some '|', ' ' :: (("undefined").data ++ T), ([] : Caps)) :: tl :=
    ⟨[], by rw [run_lit_cons, if_pos rfl]⟩
  have h2 : ∃ tl, run (f3 + 1 + 1) subP2 (some ' ')
      ('|' :: ' ' :: (("undefined").data ++ T)) =
      (some 'd', T, [(1, ("undefined").data)]) :: tl := by
    obtain ⟨tl, h⟩ := firstRes_seq hxl h3
    exact ⟨tl, h⟩
  have hxw : ∃ tl, run (f3 + 1 + 1) wsStar prev
      (' ' :: '|' :: ' ' :: (("undefined").data ++ T)) =
      (some ' ', '|' :: ' ' :: (("undefined").data ++ T), ([] : Caps)) :: tl :=
    ⟨[(prev, ' ' :: '|' :: ' ' :: (("undefined").data ++ T), [])],
      run_wsStar_one ' ' ('|' :: ' ' :: (("undefined").data ++ T)) (f3 + 1 + 1) prev
        (by decide) (fun d hd => by simp at hd; subst hd; decide)
        (by
          simp only [List.length_cons, List.length_append,
            show ((("undefined").data).length = 9) from rfl]
          omega)⟩
  obtain ⟨tl, h⟩ := firstRes_seq hxw h2
  exact ⟨tl, h⟩

theorem run_subPat_null (T : List Char) (prev : Option Char) (fu : Nat)
    (hfu : T.length + 20 < fu) :
    ∃ tl, run fu subPat prev (' ' :: '|' :: ' ' :: (("null").data ++ T)) =
      (some 'l', T, [(1, ("null").data)]) :: tl := by
  obtain ⟨f1, rfl⟩ : ∃ f1, fu = f1 + 1 := ⟨fu - 1, by omega⟩
  obtain ⟨f2, rfl⟩ : ∃ f2, f1 = f2 + 1 := ⟨f1 - 1, by omega⟩
  obtain ⟨f3, rfl⟩ : ∃ f3, f2 = f3 + 1 := ⟨f2 - 1, by omega⟩
  have h3 : ∃ tl, run (f3 + 1) subP3 (some '|') (' ' :: (("null").data ++ T)) =
      (some 'l', T, [(1, ("null").data)]) :: tl :=
    run_subP3_null T (some '|') (f3 + 1) (by omega)
  have hxl : ∃ tl, run (f3 + 1) (RE.lit '|') (some ' ')
      ('|' :: ' ' :: (("null").data ++ T)) =
      (some '|', ' ' :: (("null").data ++ T), ([] : Caps)) :: tl :=
    ⟨[], by rw [run_lit_cons, if_pos rfl]⟩
  have h2 : ∃ tl, run (f3 + 1 + 1) subP2 (some ' ')
      ('|' :: ' ' :: (("null").data ++ T)) =
      (some 'l', T, [(1, ("null").data)]) :: tl := by
    obtain ⟨tl, h⟩ := firstRes_seq hxl h3
    exact ⟨tl, h⟩
  have hxw : ∃ tl, run (f3 + 1 + 1) wsStar prev
      (' ' :: '|' :: ' ' :: (("null").data ++ T)) =
      (some ' ', '|' :: ' ' :: (("null").data ++ T), ([] : Caps)) :: tl :=
    ⟨[(prev, ' ' :: '|' :: ' ' :: (("null").data ++ T), [])],
      run_wsStar_one ' ' ('|' :: ' ' :: (("null").data ++ T)) (f3 + 1 + 1) prev
        (by decide) (fun d hd => by simp at hd; subst hd; decide)
        (by
          simp only [List.length_cons, List.length_append,
            show ((("null").data).length = 4) from rfl]
          omega)⟩
  obtain ⟨tl, h⟩ := firstRes_seq hxw h2
  exact ⟨tl, h⟩

theorem run_subPat_fail_word (c : Char) (t : List Char) (prev : Option Char) (fu : Nat)
    (hc1 : isPySpace c = false) (hc2 : c ≠ '|') (hfu : (c :: t).length + 3 < fu) :
    run fu subPat prev (c :: t) = [] := by
  obtain ⟨f, rfl⟩ : ∃ f, fu = f + 1 := ⟨fu - 1, by omega⟩
  rw [show subPat = .seq wsStar subP2 from rfl, run_seq_eq]
  rw [run_wsStar_head (c :: t) f prev
    (fun d hd => by simp at hd; subst hd; exact hc1) (by simp at hfu ⊢; omega)]
  rw [List.flatMap_cons, List.flatMap_nil, List.append_nil]
  dsimp only
  obtain ⟨f2, rfl⟩ : ∃ f2, f = f2 + 1 := ⟨f - 1, by omega⟩
  rw [show subP2 = .seq (.lit '|') subP3 from rfl, run_seq_eq]
  obtain ⟨f3, rfl⟩ : ∃ f3, f2 = f3 + 1 := ⟨f2 - 1, by omega⟩
  rw [run_lit_cons, if_neg hc2]
  rfl

theorem run_subP3_fail_sp (X : List Char) (prev : Option Char) (fu : Nat)
    (hXh : ∀ c, X.head? = some c → isPySpace c = false)
    (hu : ("undefined").data.isPrefixOf X = false)
    (hn : ("null").data.isPrefixOf X = false)
    (hfu : X.length + 15 < fu) :
    run fu subP3 prev (' ' :: X) = [] := by
  obtain ⟨f, rfl⟩ : ∃ f, fu = f + 1 := ⟨fu - 1, by omega⟩
  rw [show subP3 = .seq wsStar subP4 from rfl, run_seq_eq]
  rw [run_wsStar_one ' ' X f prev (by decide) hXh (by omega)]
  rw [List.flatMap_cons, List.flatMap_cons, List.flatMap_nil, List.append_nil]
  dsimp only
  have hpu : ("undefined").data.isPrefixOf (' ' :: X) = false := by
    rw [show ("undefined").data = 'u' :: ("ndefined").data from rfl]
    exact isPrefixOf_false_of_head _ _ _ _ (by decide)
  have hpn : ("null").data.isPrefixOf (' ' :: X) = false := by
    rw [show ("null").data = 'n' :: ("ull").data from rfl]
    exact isPrefixOf_false_of_head _ _ _ _ (by decide)
  rw [run_subP4_fail X (some ' ') f hu hn (by omega),
    run_subP4_fail (' ' :: X) prev f hpu hpn (by omega)]
  rfl

theorem run_subPat_fail_sep (X : List Char) (prev : Option Char) (fu : Nat)
    (hXh : ∀ c, X.head? = some c → isPySpace c = false)
    (hu : ("undefined").data.isPrefixOf X = false)
    (hn : ("null").data.isPrefixOf X = false)
    (hfu : X.length + 25 < fu) :
    run fu subPat prev (' ' :: '|' :: ' ' :: X) = [] := by
  obtain ⟨f, rfl⟩ : ∃ f, fu = f + 1 := ⟨fu - 1, by omega⟩
  rw [show subPat = .seq wsStar subP2 from rfl, run_seq_eq]
  rw [run_wsStar_one ' ' ('|' :: ' ' :: X) f prev (by decide)
    (fun d hd => by simp at hd; subst hd; decide)
    (by simp only [List.length_cons]; omega)]
  rw [List.flatMap_cons, List.flatMap_cons, List.flatMap_nil, List.append_nil]
  dsimp only
  obtain ⟨f2, rfl⟩ : ∃ f2, f = f2 + 1 := ⟨f - 1, by omega⟩
  have hb1 : run (f2 + 1) subP2 (some ' ') ('|' :: ' ' :: X) = [] := by
    rw [show subP2 = .seq (.lit '|') subP3 from rfl, run_seq_eq]
    obtain ⟨f3, rfl⟩ : ∃ f3, f2 = f3 + 1 := ⟨f2 - 1, by omega⟩
    rw [run_lit_cons, if_pos rfl, List.flatMap_cons, List.flatMap_nil, List.append_nil]
    dsimp only
    rw [run_subP3_fail_sp X (some '|') (f3 + 1) hXh hu hn (by omega)]
    rfl
  have hb2 : run (f2 + 1) subP2 prev (' ' :: '|' :: ' ' :: X) = [] := by
    rw [show subP2 = .seq (.lit '|') subP3 from rfl, run_seq_eq]
    obtain ⟨f3, rfl⟩ : ∃ f3, f2 = f3 + 1 := ⟨f2 - 1, by omega⟩
    rw [run_lit_cons, if_neg (show ' ' ≠ '|' from by decide)]
    rfl
  rw [hb1, hb2]
  rfl

theorem run_subPat_fail_bar (X : List Char) (prev : Option Char) (fu : Nat)
    (hXh : ∀ c, X.head? = some c → isPySpace c = false)
    (hu : ("undefined").data.isPrefixOf X = false)
    (hn : ("null").data.isPrefixOf X = false)
    (hfu : X.length + 25 < fu) :
    run fu subPat prev ('|' :: ' ' :: X) = [] := by
  obtain ⟨f, rfl⟩ : ∃ f, fu = f + 1 := ⟨fu - 1, by omega⟩
  rw [show subPat = .seq wsStar subP2 from rfl, run_seq_eq]
  rw [run_wsStar_head ('|' :: ' ' :: X) f prev
    (fun d hd => by simp at hd; subst hd; decide)
    (by simp only [List.length_cons]; omega)]
  rw [List.flatMap_cons, List.flatMap_nil, List.append_nil]
  dsimp only
  obtain ⟨f2, rfl⟩ : ∃ f2, f = f2 + 1 := ⟨f - 1, by omega⟩
  rw [show subP2 = .seq (.lit '|') subP3 from rfl, run_seq_eq]
  obtain ⟨f3, rfl⟩ : ∃ f3, f2 = f3 + 1 := ⟨f2 - 1, by omega⟩
  rw [run_lit_cons, if_pos rfl]
  rw [List.flatMap_cons, List.flatMap_nil, List.append_nil]
  dsimp only
  rw [run_subP3_fail_sp X (some '|') (f3 + 1) hXh hu hn (by omega)]
  rfl

theorem run_subPat_fail_sp (X : List Char) (prev : Option Char) (fu : Nat)
    (hXh : ∀ c, X.head? = some c → isPySpace c = false ∧ c ≠ '|')
    (hfu : X.length + 10 < fu) :
    run fu subPat prev (' ' :: X) = [] := by
  obtain ⟨f, rfl⟩ : ∃ f, fu = f + 1 := ⟨fu - 1, by omega⟩
  rw [show subPat = .seq wsStar subP2 from rfl, run_seq_eq]
  rw [run_wsStar_one ' ' X f prev (by decide) (fun d hd => (hXh d hd).1) (by omega)]
  rw [List.flatMap_cons, List.flatMap_cons, List.flatMap_nil, List.append_nil]
  dsimp only
  obtain ⟨f2, rfl⟩ : ∃ f2, f = f2 + 1 := ⟨f - 1, by omega⟩
  have hb1 : run (f2 + 1) subP2 (some ' ') X = [] := by
    rw [show subP2 = .seq (.lit '|') subP3 from rfl, run_seq_eq]
    obtain ⟨f3, rfl⟩ : ∃ f3, f2 = f3 + 1 := ⟨f2 - 1, by omega⟩
    cases X with
    | nil => rw [run_lit_nil]; rfl
    | cons x xs =>
      rw [run_lit_cons, if_neg (hXh x rfl).2]
      rfl
  have hb2 : run (f2 + 1) subP2 prev (' ' :: X) = [] := by
    rw [show subP2 = .seq (.lit '|') subP3 from rfl, run_seq_eq]
    obtain ⟨f3, rfl⟩ : ∃ f3, f2 = f3 + 1 := ⟨f2 - 1, by omega⟩
    rw [run_lit_cons, if_neg (show ' ' ≠ '|' from by decide)]
    rfl
  rw [hb1, hb2]
  rfl

theorem subGo_nil (fu : Nat) (re : RE) (prev : Option Char) :
    subGo fu re prev [] = [] := by
  cases fu with
  | zero => rfl
  | succ f =>
    rw [subGo_succ]
    rcases h : (run (fuelFor re []) re prev []).head? with _ | pr
    · rfl
    · dsimp only
      rw [if_neg (by simp)]

theorem subGo_cons_fail (re : RE) (c : Char) (t : List Char) (prev : Option Char)
    (fu : Nat) (h : run (fuelFor re (c :: t)) re prev (c :: t) = []) (hfu : 0 < fu) :
    subGo fu re prev (c :: t) = c :: subGo (fu - 1) re (some c) t := by
  obtain ⟨f, rfl⟩ : ∃ f, fu = f + 1 := ⟨fu - 1, by omega⟩
  rw [subGo_succ, h]
  rfl

theorem subGo_cons_match (re : RE) (prev : Option Char) (s : List Char)
    (pr : Option Char × List Char × Caps) (tl : List (Option Char × List Char × Caps))
    (fu : Nat) (h : run (fuelFor re s) re prev s = pr :: tl)
    (hlt : pr.2.1.length < s.length) (hfu : 0 < fu) :
    subGo fu re prev s = subGo (fu - 1) re pr.1 pr.2.1 := by
  obtain ⟨f, rfl⟩ : ∃ f, fu = f + 1 := ⟨fu - 1, by omega⟩
  rw [subGo_succ, h, List.head?_cons]
  dsimp only
  rw [if_pos hlt]
  rfl

/-- `re.sub` of the separator pattern copies a run of word-like characters
unchanged. -/
theorem subGo_copy : ∀ (A : List Char) (fu : Nat) (prev : Option Char) (t : List Char),
    (∀ c ∈ A, isPySpace c = false ∧ c ≠ '|') → A.length ≤ fu →
    subGo fu subPat prev (A ++ t) =
      A ++ subGo (fu - A.length) subPat (prevAfter A prev) t := by
  intro A
  induction A with
  | nil => intro fu prev t _ _; simp [prevAfter_nil]
  | cons c A2 ih =>
    intro fu prev t hA hfu
    obtain ⟨f, rfl⟩ : ∃ f, fu = f + 1 := ⟨fu - 1, by
      simp only [List.length_cons] at hfu
      omega⟩
    rw [List.cons_append]
    rw [subGo_cons_fail subPat c (A2 ++ t) prev (f + 1)
      (run_subPat_fail_word c (A2 ++ t) prev _
        (hA c (List.mem_cons_self _ _)).1 (hA c (List.mem_cons_self _ _)).2
        (by
          rw [show fuelFor subPat (c :: (A2 ++ t)) =
            38 * ((c :: (A2 ++ t)).length + 1) + 1 from rfl]
          omega))
      (by omega)]
    rw [show (f + 1 - 1 : Nat) = f from rfl]
    rw [ih f (some c) t (fun d hd => hA d (List.mem_cons_of_mem _ hd))
      (by simp only [List.length_cons] at hfu; omega)]
    rw [List.cons_append, prevAfter_cons]
    rw [show ((f + 1 : Nat) - (c :: A2).length) = f - A2.length from by
      simp only [List.length_cons]
      omega]

theorem pySplit_append_sep (sep : Char) : ∀ (x y : List Char), sep ∉ x →
    pySplit sep (x ++ sep :: y) = x :: pySplit sep y := by
  intro x
  induction x with
  | nil => intro y _; simp [pySplit]
  | cons c tx ih =>
    intro y hx
    have hc : c ≠ sep := fun he => hx (he ▸ List.mem_cons_self _ _)
    rw [List.cons_append, pySplit, if_neg hc,
      ih y (fun hm => hx (List.mem_cons_of_mem _ hm))]

theorem pySplit_no_sep (sep : Char) : ∀ (x : List Char), sep ∉ x →
    pySplit sep x = [x] := by
  intro x
  induction x with
  | nil => intro _; rfl
  | cons c tx ih =>
    intro hx
    have hc : c ≠ sep := fun he => hx (he ▸ List.mem_cons_self _ _)
    rw [pySplit, if_neg hc, ih (fun hm => hx (List.mem_cons_of_mem _ hm))]

theorem dropWhile_ws_all_word (X : List Char) (h : ∀ c ∈ X, isWordChar c = true) :
    X.dropWhile isPySpace = X :=
  dropWhile_eq_self_of_head _ _ (fun c hc => by
    cases X with
    | nil => simp at hc
    | cons x xs =>
      simp at hc
      subst hc
      exact not_space_of_word x (h x (List.mem_cons_self _ _)))

/-- `strip` drops a single trailing space after a word. -/
theorem pyStrip_word_right (A : List Char) (hA : A ≠ [])
    (hAw : ∀ c ∈ A, isWordChar c = true) : pyStrip (A ++ [' ']) = A := by
  unfold pyStrip
  rw [dropWhile_eq_self_of_head isPySpace (A ++ [' ']) (fun c hc => by
    cases A with
    | nil => exact absurd rfl hA
    | cons a as =>
      simp at hc
      subst hc
      exact not_space_of_word a (hAw a (List.mem_cons_self _ _)))]
  rw [List.reverse_append, List.reverse_cons, List.reverse_nil, List.nil_append,
    List.singleton_append, List.dropWhile_cons]
  rw [if_pos (by decide)]
  rw [dropWhile_ws_all_word _ (fun c hc => hAw c (List.mem_reverse.mp hc))]
  exact List.reverse_reverse A

/-- `strip` drops a single leading space before a word. -/
theorem pyStrip_space_left (B : List Char)
    (hBw : ∀ c ∈ B, isWordChar c = true) : pyStrip (' ' :: B) = B := by
  unfold pyStrip
  rw [List.dropWhile_cons, if_pos (by decide), dropWhile_ws_all_word _ hBw]
  rw [dropWhile_ws_all_word _ (fun c hc => hBw c (List.mem_reverse.mp hc))]
  exact List.reverse_reverse B

/-- `normalize_ts` when the union-with-undefined/null rule fires. -/
theorem normalize_ts_sub (s : List Char) (opt : Bool)
    (h1 : pyStrip s = s) (h2 : s.getLast? ≠ some '?')
    (h3 : (isSub ((" | undefined").data) s || isSub ((" | null").data) s) = true) :
    normalize_ts s opt = (pyStrip (reSub subPat s), true) := by
  unfold normalize_ts
  simp only [h1]
  rw [if_neg h2]
  simp only [h3, if_true]

/-- `normalize_ts` when only the trailing question mark fires. -/
theorem normalize_ts_qmark (s : List Char) (opt : Bool)
    (h1 : pyStrip s = s) (h2 : s.getLast? = some '?')
    (h3 : isSub ((" | undefined").data) (pyStrip s.dropLast) = false)
    (h4 : isSub ((" | null").data) (pyStrip s.dropLast) = false) :
    normalize_ts s opt = (pyStrip s.dropLast, true) := by
  unfold normalize_ts
  simp only [h1]
  rw [if_pos h2]
  simp [h3, h4]

/-- Any sufficient fuel computes the same one-step `convert_type_zod`. -/
theorem convert_type_zod_fuel (env : ConvEnv) (fu : Nat) (ts3 : List Char)
    (h : ts3.length ≤ fu) :
    convert_type_zod env (convert_typeF env fu) ts3 =
      convert_type_zod env (convert_typeF env ts3.length) ts3 :=
  convert_type_zod_congr env _ _ _ (fun ts2 opt2 hlt => by
    rw [convert_typeF_eq env fu ts2 opt2 (by omega),
      convert_typeF_eq env ts3.length ts2 opt2 (by omega)])

/-- When normalization is the identity with no optional flag,
`convert_type` is the one-step branch dispatch. -/
theorem convert_type_plain (env : ConvEnv) (A : List Char)
    (hnorm : normalize_ts A false = (A, false)) :
    convert_type env A false = convert_type_zod env (convert_typeF env A.length) A := by
  rw [convert_type_unfold, hnorm]
  rfl

theorem intercalate_pair (sep a b : List Char) :
    List.intercalate sep [a, b] = a ++ sep ++ b := by
  simp [List.intercalate, List.intersperse]

/-- The separator scan erases a single trailing ` | undefined`. -/
theorem reSub_word_undef (A : List Char)
    (hAc : ∀ c ∈ A, isPySpace c = false ∧ c ≠ '|') :
    reSub subPat (A ++ (' ' :: '|' :: ' ' :: ("undefined").data)) = A := by
  have hL : (A ++ (' ' :: '|' :: ' ' :: ("undefined").data)).length = A.length + 12 := by
    simp only [List.length_append, List.length_cons,
      show ((("undefined").data).length = 9) from rfl]
  show subGo ((A ++ (' ' :: '|' :: ' ' :: ("undefined").data)).length + 1) subPat none
      (A ++ (' ' :: '|' :: ' ' :: ("undefined").data)) = A
  rw [subGo_copy A _ none _ hAc (by omega)]
  obtain ⟨tl, hm⟩ := run_subPat_undef [] (prevAfter A none)
    (fuelFor subPat (' ' :: '|' :: ' ' :: ("undefined").data))
    (by rw [show fuelFor subPat (' ' :: '|' :: ' ' :: ("undefined").data) = 495 from rfl]
        simp only [List.length_nil]
        omega)
  rw [List.append_nil] at hm
  have hstep : subGo ((A ++ (' ' :: '|' :: ' ' :: ("undefined").data)).length + 1 - A.length)
      subPat (prevAfter A none) (' ' :: '|' :: ' ' :: ("undefined").data) =
      subGo ((A ++ (' ' :: '|' :: ' ' :: ("undefined").data)).length + 1 - A.length - 1)
        subPat (some 'd') [] :=
    subGo_cons_match subPat (prevAfter A none) _ (some 'd', [], [(1, ("undefined").data)])
      tl _ hm (by decide) (by omega)
  rw [hstep, subGo_nil, List.append_nil]

/-- The separator scan erases a trailing ` | undefined | null`. -/
theorem reSub_word_undef_null (A : List Char)
    (hAc : ∀ c ∈ A, isPySpace c = false ∧ c ≠ '|') :
    reSub subPat (A ++ (' ' :: '|' :: ' ' ::
      (("undefined").data ++ (' ' :: '|' :: ' ' :: ("null").data)))) = A := by
  have hL : (A ++ (' ' :: '|' :: ' ' ::
      (("undefined").data ++ (' ' :: '|' :: ' ' :: ("null").data)))).length =
      A.length + 19 := by
    simp only [List.length_append, List.length_cons,
      show ((("undefined").data).length = 9) from rfl,
      show ((("null").data).length = 4) from rfl]
  show subGo ((A ++ (' ' :: '|' :: ' ' ::
      (("undefined").data ++ (' ' :: '|' :: ' ' :: ("null").data)))).length + 1)
    subPat none (A ++ (' ' :: '|' :: ' ' ::
      (("undefined").data ++ (' ' :: '|' :: ' ' :: ("null").data)))) = A
  rw [subGo_copy A _ none _ hAc (by omega)]
  obtain ⟨tl, hm⟩ := run_subPat_undef (' ' :: '|' :: ' ' :: ("null").data)
    (prevAfter A none)
    (fuelFor subPat (' ' :: '|' :: ' ' ::
      (("undefined").data ++ (' ' :: '|' :: ' ' :: ("null").data))))
    (by rw [show fuelFor subPat (' ' :: '|' :: ' ' ::
          (("undefined").data ++ (' ' :: '|' :: ' ' :: ("null").data))) =
          38 * 20 + 1 from rfl]
        simp only [List.length_cons, show ((("null").data).length = 4) from rfl]
        omega)
  have hstep1 : subGo ((A ++ (' ' :: '|' :: ' ' ::
      (("undefined").data ++ (' ' :: '|' :: ' ' :: ("null").data)))).length + 1 - A.length)
      subPat (prevAfter A none) (' ' :: '|' :: ' ' ::
        (("undefined").data ++ (' ' :: '|' :: ' ' :: ("null").data))) =
      subGo ((A ++ (' ' :: '|' :: ' ' ::
        (("undefined").data ++ (' ' :: '|' :: ' ' :: ("null").data)))).length + 1 -
          A.length - 1)
        subPat (some 'd') (' ' :: '|' :: ' ' :: ("null").data) :=
    subGo_cons_match subPat (prevAfter A none) _
      (some 'd', ' ' :: '|' :: ' ' :: ("null").data, [(1, ("undefined").data)])
      tl _ hm (by decide) (by omega)
  obtain ⟨tl2, hm2⟩ := run_subPat_null [] (some 'd')
    (fuelFor subPat (' ' :: '|' :: ' ' :: ("null").data))
    (by rw [show fuelFor subPat (' ' :: '|' :: ' ' :: ("null").data) = 38 * 8 + 1 from rfl]
        simp only [List.length_nil]
        omega)
  rw [List.append_nil] at hm2
  have hstep2 : subGo ((A ++ (' ' :: '|' :: ' ' ::
      (("undefined").data ++ (' ' :: '|' :: ' ' :: ("null").data)))).length + 1 -
        A.length - 1)
      subPat (some 'd') (' ' :: '|' :: ' ' :: ("null").data) =
      subGo ((A ++ (' ' :: '|' :: ' ' ::
        (("undefined").data ++ (' ' :: '|' :: ' ' :: ("null").data)))).length + 1 -
          A.length - 1 - 1)
        subPat (some 'l') [] :=
    subGo_cons_match subPat (some 'd') _ (some 'l', [], [(1, ("null").data)])
      tl2 _ hm2 (by decide) (by omega)
  rw [hstep1, hstep2, subGo_nil, List.append_nil]

/-- The separator scan keeps `A | B` and erases only the trailing
` | undefined`. -/
theorem reSub_union_undef (A B : List Char)
    (hAc : ∀ c ∈ A, isPySpace c = false ∧ c ≠ '|')
    (hBc : ∀ c ∈ B, isPySpace c = false ∧ c ≠ '|') (hB : B ≠ [])
    (hBu : ("undefined").data.isPrefixOf B = false)
    (hBn : ("null").data.isPrefixOf B = false) :
    reSub subPat (A ++ (' ' :: '|' :: ' ' ::
      (B ++ (' ' :: '|' :: ' ' :: ("undefined").data)))) =
      A ++ (' ' :: '|' :: ' ' :: B) := by
  have hL : (A ++ (' ' :: '|' :: ' ' ::
      (B ++ (' ' :: '|' :: ' ' :: ("undefined").data)))).length =
      A.length + B.length + 15 := by
    simp only [List.length_append, List.length_cons,
      show ((("undefined").data).length = 9) from rfl]
    omega
  have hXh : ∀ c, (B ++ (' ' :: '|' :: ' ' :: ("undefined").data)).head? = some c →
      isPySpace c = false := by
    intro c hc
    cases B with
    | nil => exact absurd rfl hB
    | cons b bs =>
      rw [show (((b :: bs) ++ (' ' :: '|' :: ' ' :: ("undefined").data)).head?) = some b
        from rfl] at hc
      injection hc with h2
      subst h2
      exact (hBc b (List.mem_cons_self _ _)).1
  have hXh2 : ∀ c, (B ++ (' ' :: '|' :: ' ' :: ("undefined").data)).head? = some c →
      isPySpace c = false ∧ c ≠ '|' := by
    intro c hc
    cases B with
    | nil => exact absurd rfl hB
    | cons b bs =>
      rw [show (((b :: bs) ++ (' ' :: '|' :: ' ' :: ("undefined").data)).head?) = some b
        from rfl] at hc
      injection hc with h2
      subst h2
      exact hBc b (List.mem_cons_self _ _)
  have hu : ("undefined").data.isPrefixOf
      (B ++ (' ' :: '|' :: ' ' :: ("undefined").data)) = false :=
    not_prefix_append_space _ B _ (by decide) hBu
  have hn : ("null").data.isPrefixOf
      (B ++ (' ' :: '|' :: ' ' :: ("undefined").data)) = false :=
    not_prefix_append_space _ B _ (by decide) hBn
  show subGo ((A ++ (' ' :: '|' :: ' ' ::
      (B ++ (' ' :: '|' :: ' ' :: ("undefined").data)))).length + 1) subPat none
    (A ++ (' ' :: '|' :: ' ' :: (B ++ (' ' :: '|' :: ' ' :: ("undefined").data)))) =
    A ++ (' ' :: '|' :: ' ' :: B)
  rw [subGo_copy A _ none _ hAc (by omega)]
  set F1 : Nat := (A ++ (' ' :: '|' :: ' ' ::
    (B ++ (' ' :: '|' :: ' ' :: ("undefined").data)))).length + 1 - A.length with hF1
  have hst1 : subGo F1 subPat (prevAfter A none)
      (' ' :: '|' :: ' ' :: (B ++ (' ' :: '|' :: ' ' :: ("undefined").data))) =
      ' ' :: subGo (F1 - 1) subPat (some ' ')
        ('|' :: ' ' :: (B ++ (' ' :: '|' :: ' ' :: ("undefined").data))) :=
    subGo_cons_fail subPat ' ' _ _ _
      (run_subPat_fail_sep _ _ _ hXh hu hn
        (by rw [show fuelFor subPat (' ' :: '|' :: ' ' ::
              (B ++ (' ' :: '|' :: ' ' :: ("undefined").data))) =
              38 * ((' ' :: '|' :: ' ' ::
                (B ++ (' ' :: '|' :: ' ' :: ("undefined").data))).length + 1) + 1
              from rfl]
            simp only [List.length_append, List.length_cons,
              show ((("undefined").data).length = 9) from rfl]
            omega))
      (by omega)
  have hst2 : subGo (F1 - 1) subPat (some ' ')
      ('|' :: ' ' :: (B ++ (' ' :: '|' :: ' ' :: ("undefined").data))) =
      '|' :: subGo (F1 - 1 - 1) subPat (some '|')
        (' ' :: (B ++ (' ' :: '|' :: ' ' :: ("undefined").data))) :=
    subGo_cons_fail subPat '|' _ _ _
      (run_subPat_fail_bar _ _ _ hXh hu hn
        (by rw [show fuelFor subPat ('|' :: ' ' ::
              (B ++ (' ' :: '|' :: ' ' :: ("undefined").data))) =
              38 * (('|' :: ' ' ::
                (B ++ (' ' :: '|' :: ' ' :: ("undefined").data))).length + 1) + 1
              from rfl]
            simp only [List.length_append, List.length_cons,
              show ((("undefined").data).length = 9) from rfl]
            omega))
      (by omega)
  have hst3 : subGo (F1 - 1 - 1) subPat (some '|')
      (' ' :: (B ++ (' ' :: '|' :: ' ' :: ("undefined").data))) =
      ' ' :: subGo (F1 - 1 - 1 - 1) subPat (some ' ')
        (B ++ (' ' :: '|' :: ' ' :: ("undefined").data)) :=
    subGo_cons_fail subPat ' ' _ _ _
      (run_subPat_fail_sp _ _ _ hXh2
        (by rw [show fuelFor subPat (' ' ::
              (B ++ (' ' :: '|' :: ' ' :: ("undefined").data))) =
              38 * ((' ' ::
                (B ++ (' ' :: '|' :: ' ' :: ("undefined").data))).length + 1) + 1
              from rfl]
            simp only [List.length_append, List.length_cons,
              show ((("undefined").data).length = 9) from rfl]
            omega))
      (by omega)
  have hst4 : subGo (F1 - 1 - 1 - 1) subPat (some ' ')
      (B ++ (' ' :: '|' :: ' ' :: ("undefined").data)) =
      B ++ subGo (F1 - 1 - 1 - 1 - B.length) subPat (prevAfter B (some ' '))
        (' ' :: '|' :: ' ' :: ("undefined").data) :=
    subGo_copy B _ _ _ hBc (by omega)
  obtain ⟨tl, hm⟩ := run_subPat_undef [] (prevAfter B (some ' '))
    (fuelFor subPat (' ' :: '|' :: ' ' :: ("undefined").data))
    (by rw [show fuelFor subPat (' ' :: '|' :: ' ' :: ("undefined").data) = 495 from rfl]
        simp only [List.length_nil]
        omega)
  rw [List.append_nil] at hm
  have hst5 : subGo (F1 - 1 - 1 - 1 - B.length) subPat (prevAfter B (some ' '))
      (' ' :: '|' :: ' ' :: ("undefined").data) =
      subGo (F1 - 1 - 1 - 1 - B.length - 1) subPat (some 'd') [] :=
    subGo_cons_match subPat (prevAfter B (some ' ')) _
      (some 'd', [], [(1, ("undefined").data)]) tl _ hm (by decide) (by omega)
  rw [hst1, hst2, hst3, hst4, hst5, subGo_nil, List.append_nil]

/-- C3.  `convert("A | B | undefined")` is `optional(union(convert A,
convert B))`; `convert("A | undefined")` reduces to `optional(convert A)`
with no one-armed union; and the optional wrapper is applied exactly once
no matter how many optionality signals fired (trailing `?`, an `undefined`
branch, a `null` branch, or the caller flag). -/
theorem claim_C3_optional_once (env : ConvEnv) (A B : List Char)
    (hA : A ≠ []) (hAw : ∀ c ∈ A, isWordChar c = true)
    (hB : B ≠ []) (hBw : ∀ c ∈ B, isWordChar c = true)
    (hBu : ("undefined").data.isPrefixOf B = false)
    (hBn : ("null").data.isPrefixOf B = false) :
    convert_type env (A ++ (" | ").data ++ B ++ (" | undefined").data) false =
      ("z.union([").data ++ convert_type env A false ++ ((", ").data) ++
        convert_type env B false ++ ("]).optional()").data ∧
    convert_type env (A ++ (" | undefined").data) false =
      convert_type env A false ++ ((".optional()").data) ∧
    convert_type env (A ++ (" | undefined | null").data) true =
      convert_type env A false ++ ((".optional()").data) ∧
    convert_type env (A ++ ("?").data) true =
      convert_type env A false ++ ((".optional()").data) := by
  have hAc : ∀ c ∈ A, isPySpace c = false ∧ c ≠ '|' := fun c hc =>
    ⟨not_space_of_word c (hAw c hc),
     fun he => by subst he; exact absurd (hAw '|' hc) (by decide)⟩
  have hBc : ∀ c ∈ B, isPySpace c = false ∧ c ≠ '|' := fun c hc =>
    ⟨not_space_of_word c (hBw c hc),
     fun he => by subst he; exact absurd (hBw '|' hc) (by decide)⟩
  have hAstrip : pyStrip A = A :=
    pyStrip_eq_self_of_ends A
      (fun c hc => not_space_of_word c (hAw c (List.mem_of_mem_head? hc)))
      (fun c hc => not_space_of_word c (hAw c (List.mem_of_mem_getLast? hc)))
  have hAsp : ' ' ∉ A := fun hm => absurd (hAw ' ' hm) (by decide)
  have hnormA : normalize_ts A false = (A, false) :=
    normalize_ts_id A false hAstrip
      (fun h2 => absurd (hAw '?' (List.mem_of_mem_getLast? h2)) (by decide))
      (isSub_false_of_missing _ _ ' ' (by decide) hAsp)
      (isSub_false_of_missing _ _ ' ' (by decide) hAsp)
  have hheadA : ∀ (X : List Char) (c : Char), (A ++ X).head? = some c →
      isPySpace c = false := by
    intro X c hc
    cases A with
    | nil => exact absurd rfl hA
    | cons a as =>
      rw [show (((a :: as) ++ X).head?) = some a from rfl] at hc
      injection hc with h2
      subst h2
      exact not_space_of_word a (hAw a (List.mem_cons_self _ _))
  have hfin : ∀ (s0 : List Char), A.length ≤ s0.length →
      convert_type_zod env (convert_typeF env s0.length) A ++ ((".optional()").data) =
        convert_type env A false ++ ((".optional()").data) := fun s0 hlen => by
    rw [convert_type_zod_fuel env s0.length A hlen, ← convert_type_plain env A hnormA]
  refine ⟨?_, ?_, ?_, ?_⟩
  · -- A | B | undefined
    have hsh1 : A ++ (" | ").data ++ B ++ (" | undefined").data =
        A ++ (' ' :: '|' :: ' ' :: (B ++ (' ' :: '|' :: ' ' :: ("undefined").data))) := by
      rw [show (" | ").data = [' ', '|', ' '] from by decide,
        show (" | undefined").data = [' ', '|', ' '] ++ ("undefined").data from by decide]
      simp only [List.append_assoc, List.cons_append, List.nil_append]
    rw [hsh1]
    have hBlastw : ∀ c, (A ++ (' ' :: '|' :: ' ' :: B)).getLast? = some c →
        isWordChar c = true := by
      intro c hc
      have hsf : B <:+ A ++ (' ' :: '|' :: ' ' :: B) := ⟨A ++ [' ', '|', ' '], by simp⟩
      rw [getLast?_of_suffix hsf hB] at hc
      exact hBw c (List.mem_of_mem_getLast? hc)
    have hlast1 : (A ++ (' ' :: '|' :: ' ' ::
        (B ++ (' ' :: '|' :: ' ' :: ("undefined").data)))).getLast? = some 'd' := by
      have hsf : ("undefined").data <:+ (A ++ (' ' :: '|' :: ' ' ::
          (B ++ (' ' :: '|' :: ' ' :: ("undefined").data)))) :=
        ⟨A ++ (' ' :: '|' :: ' ' :: (B ++ [' ', '|', ' '])), by simp⟩
      rw [getLast?_of_suffix hsf (by decide)]
      decide
    have hstrip1 : pyStrip (A ++ (' ' :: '|' :: ' ' ::
        (B ++ (' ' :: '|' :: ' ' :: ("undefined").data)))) =
        A ++ (' ' :: '|' :: ' ' :: (B ++ (' ' :: '|' :: ' ' :: ("undefined").data))) :=
      pyStrip_eq_self_of_ends _ (hheadA _)
        (fun c hc => by rw [hlast1] at hc; injection hc with h2; subst h2; decide)
    have hsub1 : (isSub ((" | undefined").data) (A ++ (' ' :: '|' :: ' ' ::
        (B ++ (' ' :: '|' :: ' ' :: ("undefined").data)))) ||
        isSub ((" | null").data) (A ++ (' ' :: '|' :: ' ' ::
          (B ++ (' ' :: '|' :: ' ' :: ("undefined").data))))) = true := by
      have h := (isSub_iff ((" | undefined").data) (A ++ (' ' :: '|' :: ' ' ::
          (B ++ (' ' :: '|' :: ' ' :: ("undefined").data))))).mpr
        ⟨A ++ (' ' :: '|' :: ' ' :: B), [], by
          rw [show (" | undefined").data = [' ', '|', ' '] ++ ("undefined").data
            from by decide]
          simp⟩
      rw [h, Bool.true_or]
    have hres1 : reSub subPat (A ++ (' ' :: '|' :: ' ' ::
        (B ++ (' ' :: '|' :: ' ' :: ("undefined").data)))) =
        A ++ (' ' :: '|' :: ' ' :: B) :=
      reSub_union_undef A B hAc hBc hB hBu hBn
    have hstrip1b : pyStrip (A ++ (' ' :: '|' :: ' ' :: B)) =
        A ++ (' ' :: '|' :: ' ' :: B) :=
      pyStrip_eq_self_of_ends _ (hheadA _)
        (fun c hc => not_space_of_word c (hBlastw c hc))
    have hbig : (A ++ (' ' :: '|' :: ' ' ::
        (B ++ (' ' :: '|' :: ' ' :: ("undefined").data)))).length =
        A.length + B.length + 15 := by
      simp only [List.length_append, List.length_cons,
        show ((("undefined").data).length = 9) from rfl]
      omega
    rw [convert_type_unfold, normalize_ts_sub _ false hstrip1 (by rw [hlast1]; simp) hsub1]
    show convert_type_zod env (convert_typeF env (A ++ (' ' :: '|' :: ' ' ::
        (B ++ (' ' :: '|' :: ' ' :: ("undefined").data)))).length)
      (pyStrip (reSub subPat (A ++ (' ' :: '|' :: ' ' ::
        (B ++ (' ' :: '|' :: ' ' :: ("undefined").data)))))) ++ ((".optional()").data) = _
    rw [hres1, hstrip1b]
    have hpipe : '|' ∈ A ++ (' ' :: '|' :: ' ' :: B) :=
      List.mem_append.mpr (Or.inr (by simp))
    unfold convert_type_zod
    rw [lookup_eq_none_of_ne _ _ (fun kv hkv => by
      fin_cases hkv <;>
        exact fun heq => absurd (heq.symm ▸ hpipe) (by decide))]
    simp only
    rw [if_neg (fun hb => absurd (hBlastw ']' (suffix_brackets_getLast hb)) (by decide))]
    rw [if_neg (fun hb => absurd (hBlastw '>' hb.2) (by decide))]
    rw [if_neg (by
      simp [not_prefix_append_space ("Record<").data A ('|' :: ' ' :: B) (by decide)
        (isPrefixOf_word_false _ A hAw '<' (by decide) (by decide))])]
    rw [if_pos (show isSub ((" | ").data) (A ++ (' ' :: '|' :: ' ' :: B)) = true from
      (isSub_iff _ _).mpr ⟨A, B, by
        rw [show (" | ").data = [' ', '|', ' '] from by decide]
        simp⟩)]
    rw [show A ++ (' ' :: '|' :: ' ' :: B) = (A ++ [' ']) ++ '|' :: (' ' :: B) from by simp]
    rw [pySplit_append_sep '|' (A ++ [' ']) (' ' :: B) (by
      intro hm
      rcases List.mem_append.mp hm with hm | hm
      · exact absurd (hAw '|' hm) (by decide)
      · simp at hm)]
    rw [pySplit_no_sep '|' (' ' :: B) (by
      intro hm
      rcases List.mem_cons.mp hm with hm | hm
      · exact absurd hm (by decide)
      · exact absurd (hBw '|' hm) (by decide))]
    rw [List.map_cons, List.map_cons, List.map_nil]
    rw [pyStrip_word_right A hA hAw, pyStrip_space_left B hBw]
    rw [convert_typeF_eq env _ A false (by rw [hbig]; omega),
      convert_typeF_eq env _ B false (by rw [hbig]; omega)]
    rw [intercalate_pair]
    simp [List.append_assoc]
  · -- A | undefined
    have hlast2 : (A ++ (" | undefined").data).getLast? = some 'd' := by
      rw [show (" | undefined").data = (" | undefine").data ++ ['d'] from by decide,
        ← List.append_assoc]
      exact List.getLast?_concat _
    have hstrip2 : pyStrip (A ++ (" | undefined").data) = A ++ (" | undefined").data :=
      pyStrip_eq_self_of_ends _ (hheadA _)
        (fun c hc => by rw [hlast2] at hc; injection hc with h2; subst h2; decide)
    have hsub2 : (isSub ((" | undefined").data) (A ++ (" | undefined").data) ||
        isSub ((" | null").data) (A ++ (" | undefined").data)) = true := by
      have h := (isSub_iff ((" | undefined").data) (A ++ (" | undefined").data)).mpr
        ⟨A, [], by simp⟩
      rw [h, Bool.true_or]
    have hres2 : reSub subPat (A ++ (" | undefined").data) = A := by
      rw [show (" | undefined").data = ' ' :: '|' :: ' ' :: ("undefined").data
        from by decide]
      exact reSub_word_undef A hAc
    rw [convert_type_unfold,
      normalize_ts_sub _ false hstrip2 (by rw [hlast2]; simp) hsub2]
    show convert_type_zod env (convert_typeF env (A ++ (" | undefined").data).length)
      (pyStrip (reSub subPat (A ++ (" | undefined").data))) ++ ((".optional()").data) = _
    rw [hres2, hAstrip]
    exact hfin _ (by simp)
  · -- A | undefined | null with the caller flag also set
    have hlast3 : (A ++ (" | undefined | null").data).getLast? = some 'l' := by
      rw [show (" | undefined | null").data = (" | undefined | nul").data ++ ['l']
        from by decide, ← List.append_assoc]
      exact List.getLast?_concat _
    have hstrip3 : pyStrip (A ++ (" | undefined | null").data) =
        A ++ (" | undefined | null").data :=
      pyStrip_eq_self_of_ends _ (hheadA _)
        (fun c hc => by rw [hlast3] at hc; injection hc with h2; subst h2; decide)
    have hsub3 : (isSub ((" | undefined").data) (A ++ (" | undefined | null").data) ||
        isSub ((" | null").data) (A ++ (" | undefined | null").data)) = true := by
      have h := (isSub_iff ((" | undefined").data)
          (A ++ (" | undefined | null").data)).mpr
        ⟨A, (" | null").data, by
          rw [show (" | undefined | null").data =
            (" | undefined").data ++ (" | null").data from by decide]
          simp⟩
      rw [h, Bool.true_or]
    have hres3 : reSub subPat (A ++ (" | undefined | null").data) = A := by
      rw [show (" | undefined | null").data = ' ' :: '|' :: ' ' ::
        (("undefined").data ++ (' ' :: '|' :: ' ' :: ("null").data)) from by decide]
      exact reSub_word_undef_null A hAc
    rw [convert_type_unfold,
      normalize_ts_sub _ true hstrip3 (by rw [hlast3]; simp) hsub3]
    show convert_type_zod env
      (convert_typeF env (A ++ (" | undefined | null").data).length)
      (pyStrip (reSub subPat (A ++ (" | undefined | null").data))) ++
        ((".optional()").data) = _
    rw [hres3, hAstrip]
    exact hfin _ (by simp)
  · -- trailing question mark with the caller flag also set
    have hlast4 : (A ++ ("?").data).getLast? = some '?' := by
      rw [show ("?").data = ['?'] from by decide]
      exact List.getLast?_concat _
    have hstrip4 : pyStrip (A ++ ("?").data) = A ++ ("?").data :=
      pyStrip_eq_self_of_ends _ (hheadA _)
        (fun c hc => by rw [hlast4] at hc; injection hc with h2; subst h2; decide)
    have hd4 : (A ++ ("?").data).dropLast = A := by
      rw [show ("?").data = ['?'] from by decide]
      exact List.dropLast_concat
    rw [convert_type_unfold,
      normalize_ts_qmark _ true hstrip4 hlast4
        (by rw [hd4, hAstrip]; exact isSub_false_of_missing _ _ ' ' (by decide) hAsp)
        (by rw [hd4, hAstrip]; exact isSub_false_of_missing _ _ ' ' (by decide) hAsp)]
    show convert_type_zod env (convert_typeF env (A ++ ("?").data).length)
      (pyStrip (A ++ ("?").data).dropLast) ++ ((".optional()").data) = _
    rw [hd4, hAstrip]
    exact hfin _ (by simp)

theorem claim_C3_witness :
    ("Foo").data ≠ [] ∧
    (convert_type ⟨[], [], []⟩
        (("Foo").data ++ (" | ").data ++ ("Bar").data ++ (" | undefined").data) false =
      ("z.union([").data ++ convert_type ⟨[], [], []⟩ (("Foo").data) false ++
        ((", ").data) ++ convert_type ⟨[], [], []⟩ (("Bar").data) false ++
        ("]).optional()").data ∧
     convert_type ⟨[], [], []⟩ (("Foo").data ++ (" | undefined").data) false =
       convert_type ⟨[], [], []⟩ (("Foo").data) false ++ ((".optional()").data) ∧
     convert_type ⟨[], [], []⟩ (("Foo").data ++ (" | undefined | null").data) true =
       convert_type ⟨[], [], []⟩ (("Foo").data) false ++ ((".optional()").data) ∧
     convert_type ⟨[], [], []⟩ (("Foo").data ++ ("?").data) true =
       convert_type ⟨[], [], []⟩ (("Foo").data) false ++ ((".optional()").data)) :=
  ⟨by decide,
   claim_C3_optional_once ⟨[], [], []⟩ (("Foo").data) (("Bar").data)
     (by decide) (by decide) (by decide) (by decide) (by decide) (by decide)⟩

/-! ### Output layout (C8) -/

theorem foldl_enum_pairs : ∀ (l : List (List Char × List (List Char)))
    (acc : List (List Char)),
    l.foldl (fun acc p => acc ++ [enum_to_zod p.1 p.2, []]) acc =
      acc ++ l.flatMap (fun p => [enum_to_zod p.1 p.2, []]) := by
  intro l
  induction l with
  | nil => intro acc; simp
  | cons p tl ih =>
    intro acc
    rw [List.foldl_cons, ih, List.flatMap_cons, List.append_assoc]

theorem foldl_type_pairs (env : ConvEnv) : ∀ (l : List (List Char × List Char))
    (acc : List (List Char)),
    l.foldl (fun acc p => acc ++ [type_alias_to_zod env p.1 p.2, []]) acc =
      acc ++ l.flatMap (fun p => [type_alias_to_zod env p.1 p.2, []]) := by
  intro l
  induction l with
  | nil => intro acc; simp
  | cons p tl ih =>
    intro acc
    rw [List.foldl_cons, ih, List.flatMap_cons, List.append_assoc]

theorem foldl_iface_pairs (env : ConvEnv) : ∀ (l : List (List Char × List Char))
    (acc : List (List Char)),
    l.foldl (fun acc p =>
        match parse_interface p.2 with
        | some q => acc ++ [interface_to_zod env p.1 q.2, []]
        | none => acc) acc =
      acc ++ l.flatMap (fun p =>
        match parse_interface p.2 with
        | some q => [interface_to_zod env p.1 q.2, []]
        | none => []) := by
  intro l
  induction l with
  | nil => intro acc; simp
  | cons p tl ih =>
    intro acc
    rw [List.foldl_cons, List.flatMap_cons]
    cases hp : parse_interface p.2 with
    | none => rw [ih, List.nil_append]
    | some q => rw [ih, List.append_assoc]

/-- C8 counterexample.  The header is not a single import line (a comment
line and blank lines follow it), and two successfully parsed declarations
with the same name yield only ONE emitted pair (the registry deduplicates
by name, keeping the last body). -/
theorem claim_C8_counterexample :
    convert_file [] =
      ("import \x7b z \x7d from \x27zod\x27;\n\n// Auto-generated Zod schemas\n").data ∧
    ("import \x7b z \x7d from \x27zod\x27;\n\n// Auto-generated Zod schemas\n").data ≠
      ("import \x7b z \x7d from \x27zod\x27;").data ∧
    (findIter interfacePat
      (("interface A \x7b x: string; \x7d\ninterface A \x7b y: number; \x7d").data)).length
      = 2 ∧
    convert_file
        (("interface A \x7b x: string; \x7d\ninterface A \x7b y: number; \x7d").data) =
      ("import \x7b z \x7d from \x27zod\x27;\n\n// Auto-generated Zod schemas\n\nexport const ASchema = z.object(\x7b\n  y: z.number(),\n\x7d);\n\nexport type A = z.infer<typeof ASchema>;\n").data :=
  ⟨by decide, by decide, by decide, by decide⟩

/-- C8 (amended).  For every input, the output is the newline-join of: a
four-line header (import line, blank, generated-comment line, blank),
then one schema-plus-type-binding pair (followed by a blank line) per
REGISTRY entry — declarations are registered by name, so duplicates
collapse to one entry holding the last body — in the fixed order
enumerations, then type aliases, then shapes. -/
theorem claim_C8_output_layout :
    ∀ input : List Char, convert_file input =
      List.intercalate nl
        ([("import \x7b z \x7d from \x27zod\x27;").data, [],
          ("// Auto-generated Zod schemas").data, []] ++
          ((enumsOf input).flatMap (fun p => [enum_to_zod p.1 p.2, []]) ++
          ((typesOf input).flatMap (fun p =>
            [type_alias_to_zod ⟨interfacesOf input, typesOf input, enumsOf input⟩
              p.1 p.2, []]) ++
          (interfacesOf input).flatMap (fun p =>
            match parse_interface p.2 with
            | some q => [interface_to_zod ⟨interfacesOf input, typesOf input,
                enumsOf input⟩ p.1 q.2, []]
            | none => [])))) := by
  intro input
  show List.intercalate nl
    ((interfacesOf input).foldl (fun acc p =>
      match parse_interface p.2 with
      | some q => acc ++ [interface_to_zod ⟨interfacesOf input, typesOf input,
          enumsOf input⟩ p.1 q.2, []]
      | none => acc)
      ((typesOf input).foldl (fun acc p =>
        acc ++ [type_alias_to_zod ⟨interfacesOf input, typesOf input, enumsOf input⟩
          p.1 p.2, []])
        ((enumsOf input).foldl (fun acc p => acc ++ [enum_to_zod p.1 p.2, []])
          [("import \x7b z \x7d from \x27zod\x27;").data, [],
           ("// Auto-generated Zod schemas").data, []]))) =
    List.intercalate nl _
  rw [foldl_iface_pairs, foldl_type_pairs, foldl_enum_pairs]
  rw [List.append_assoc, List.append_assoc]

end ZodGen
